import Mathlib

set_option maxRecDepth 8192

/-!
Verification of the protohackers servers (line-reversal / speed-daemon /
voracious-code-storage) against their natural-language specification.

Modelling conventions, used throughout:
- Machine integers (u16, u32, u64) are modelled as Nat; where the Rust code
  can overflow, release-mode wrapping semantics are made explicit with
  percent 2^w.
- Rust String values are modelled as List Char.  The protocols involved are
  ASCII protocols, on which Rust byte indexing and character indexing agree.
- Rust f64 arithmetic in the speed computation is modelled exactly over the
  rationals; .round() (round half away from zero, positive arguments) of
  d / (dt/3600) is floor ((7200*d + dt) / (2*dt)).
-/

namespace Lrcp

/-- Wire message kinds of LRCP (src/line-reversal/src/lrcp/message.rs,
enum MessageType; the payload field is called data in the source). -/
inductive MessageType where
  | connect : MessageType
  | data (position : Nat) (payload : List Char) : MessageType
  | ack (length : Nat) : MessageType
  | close : MessageType
deriving DecidableEq, Repr

/-- A parsed LRCP message (struct Message in message.rs). -/
structure Message where
  session : Nat
  ty : MessageType
deriving DecidableEq, Repr

/-- Message::data constructor helper. -/
def Message.data (session position : Nat) (payload : List Char) : Message :=
  ⟨session, MessageType.data position payload⟩

/-- Message::ack constructor helper. -/
def Message.ack (session length : Nat) : Message :=
  ⟨session, MessageType.ack length⟩

/-- Message::close constructor helper. -/
def Message.close (session : Nat) : Message :=
  ⟨session, MessageType.close⟩

instance {ε α : Type} [DecidableEq ε] [DecidableEq α] : DecidableEq (Except ε α)
  | Except.ok a, Except.ok b =>
      if h : a = b then isTrue (by rw [h]) else isFalse (by simp [h])
  | Except.ok _, Except.error _ => isFalse (by simp)
  | Except.error _, Except.ok _ => isFalse (by simp)
  | Except.error e, Except.error f =>
      if h : e = f then isTrue (by rw [h]) else isFalse (by simp [h])

/-- Digit accumulation for decimal printing, most significant digit first.
The first argument is fuel; any fuel at least the printed number works. -/
def natToStringAux : Nat → Nat → List Char
  | 0, _ => []
  | fuel + 1, n =>
      if n = 0 then [] else natToStringAux fuel (n / 10) ++ [Nat.digitChar (n % 10)]

/-- Decimal printing of a machine integer (Rust u32::to_string). -/
def natToString (n : Nat) : List Char :=
  if n = 0 then ['0'] else natToStringAux n n

/-- Largest u32 value. -/
def U32_MAX : Nat := 4294967295

/-- Value of a most-significant-first decimal digit string. -/
def decimalValue (s : List Char) : Nat :=
  s.foldl (fun acc c => acc * 10 + (c.toNat - 48)) 0

/-- Rust str::parse::<u32>: optional leading plus sign, at least one ASCII
digit (a minus sign or any other character fails the digit test), value at
most u32::MAX. -/
def parseU32 (s : List Char) : Option Nat :=
  let ds := if s.head? = some '+' then s.tail else s
  if ds ≠ [] ∧ ds.all Char.isDigit ∧ decimalValue ds ≤ U32_MAX then
    some (decimalValue ds)
  else none

/-- Rust str::replace specialized to a one-character pattern: replace every
occurrence, scanning left to right. -/
def replace1 (p : Char) (rep : List Char) : List Char → List Char
  | [] => []
  | c :: rest =>
    if c = p then rep ++ replace1 p rep rest else c :: replace1 p rep rest

/-- Rust str::replace specialized to a two-character pattern: replace every
non-overlapping occurrence, scanning left to right. -/
def replace2 (p q : Char) (rep : List Char) : List Char → List Char
  | [] => []
  | [c] => [c]
  | c :: d :: rest =>
    if c = p ∧ d = q then rep ++ replace2 p q rep rest
    else c :: replace2 p q rep (d :: rest)

/-- The escaping applied by Message::to_string to a data payload: backslash
becomes double backslash, then slash becomes backslash-slash. -/
def escapeData (s : List Char) : List Char :=
  replace1 '/' ['\\', '/'] (replace1 '\\' ['\\', '\\'] s)

/-- Message::to_string (message.rs): slash-framed ASCII rendering. -/
def msgToString (m : Message) : List Char :=
  let session := natToString m.session
  let body : List Char :=
    match m.ty with
    | MessageType.connect => "connect".toList ++ '/' :: session
    | MessageType.close => "close".toList ++ '/' :: session
    | MessageType.ack length =>
        "ack".toList ++ '/' :: session ++ '/' :: natToString length
    | MessageType.data position payload =>
        "data".toList ++ '/' :: session ++ '/' :: natToString position
          ++ '/' :: escapeData payload
  '/' :: (body ++ ['/'])

/-- enum ParseMessageError of message.rs. -/
inductive ParseMessageError where
  | unknown
  | parseInt
  | badDataFormat
deriving DecidableEq, Repr

/-- The validation loop inside unescape_data: walks the characters keeping
the variable last.  After a completed escape pair the following character is
loaded directly into last and is not itself checked against '/' . -/
def validateLoop : Option Char → List Char → Bool
  | last, [] => !(last == some '\\' || last == some '/')
  | last, ch :: rest =>
    if last == some '\\' then
      if ch ≠ '/' ∧ ch ≠ '\\' then false
      else
        match rest with
        | [] => true
        | c :: rest2 => validateLoop (some c) rest2
    else if ch = '/' then false
    else validateLoop (some ch) rest

/-- Entry point of the validation in unescape_data: the first character is
loaded into last before the loop starts. -/
def validateEscaped (s : List Char) : Bool :=
  match s with
  | [] => true
  | c :: rest => validateLoop (some c) rest

/-- unescape_data (message.rs): validate, then undo the two replaces. -/
def unescapeData (s : List Char) : Except ParseMessageError (List Char) :=
  if validateEscaped s then
    Except.ok (replace2 '\\' '/' ['/'] (replace2 '\\' '\\' ['\\'] s))
  else
    Except.error ParseMessageError.badDataFormat

/-- Message::from_str (message.rs): strip the framing slashes, split on '/' ,
read the kind and session, then the kind-specific fields; for data the
remaining parts are rejoined with '/' and unescaped. -/
def fromStr (s : List Char) : Except ParseMessageError Message :=
  if s.length < 2 ∨ s.head? ≠ some '/' ∨ s.getLast? ≠ some '/' then
    Except.error ParseMessageError.unknown
  else
    match ((s.drop 1).dropLast).splitOn '/' with
    | [] => Except.error ParseMessageError.unknown
    | ty :: parts =>
      match parts with
      | [] => Except.error ParseMessageError.unknown
      | sessionStr :: parts2 =>
        match parseU32 sessionStr with
        | none => Except.error ParseMessageError.parseInt
        | some session =>
          if ty = "connect".toList then
            if parts2 = [] then Except.ok ⟨session, MessageType.connect⟩
            else Except.error ParseMessageError.unknown
          else if ty = "close".toList then
            if parts2 = [] then Except.ok ⟨session, MessageType.close⟩
            else Except.error ParseMessageError.unknown
          else if ty = "ack".toList then
            match parts2 with
            | [] => Except.error ParseMessageError.unknown
            | lenStr :: parts3 =>
              match parseU32 lenStr with
              | none => Except.error ParseMessageError.parseInt
              | some length =>
                if parts3 = [] then Except.ok ⟨session, MessageType.ack length⟩
                else Except.error ParseMessageError.unknown
          else if ty = "data".toList then
            match parts2 with
            | [] => Except.error ParseMessageError.unknown
            | posStr :: parts3 =>
              match parseU32 posStr with
              | none => Except.error ParseMessageError.parseInt
              | some position =>
                match unescapeData (List.intercalate ['/'] parts3) with
                | Except.error e => Except.error e
                | Except.ok payload =>
                    Except.ok ⟨session, MessageType.data position payload⟩
          else Except.error ParseMessageError.unknown

example : fromStr "/data/1234567/0/hello/".toList
    = Except.ok (Message.data 1234567 0 "hello".toList) := by decide

example : fromStr "/connect/1234567/".toList
    = Except.ok ⟨1234567, MessageType.connect⟩ := by decide

example : fromStr "/ack/1234567/5/".toList
    = Except.ok (Message.ack 1234567 5) := by decide

example : fromStr "/data/510246063/0/a\\//".toList
    = Except.ok (Message.data 510246063 0 "a/".toList) := by decide

example : fromStr "/data/6/7/\\/".toList
    = Except.error ParseMessageError.badDataFormat := by decide

example : fromStr "/data/6/7///".toList
    = Except.error ParseMessageError.badDataFormat := by decide

example : fromStr "/data/3/1/hel\\lo/world/".toList
    = Except.error ParseMessageError.badDataFormat := by decide

example : fromStr "ack/123/1/".toList
    = Except.error ParseMessageError.unknown := by decide

example : msgToString (Message.data 12345 50 "Hello, world!".toList)
    = "/data/12345/50/Hello, world!/".toList := by decide

example : msgToString (Message.data 1234568 0 "/".toList)
    = "/data/1234568/0/\\//".toList := by decide

/-- Per-character view of the payload escaping. -/
def escChar (c : Char) : List Char :=
  if c = '\\' then ['\\', '\\'] else if c = '/' then ['\\', '/'] else [c]

/-- Per-character view of the payload after the double-backslash collapse. -/
def halfChar (c : Char) : List Char :=
  if c = '\\' then ['\\'] else if c = '/' then ['\\', '/'] else [c]

theorem replace1_cons_eq {c p : Char} (rep X : List Char) (h : c = p) :
    replace1 p rep (c :: X) = rep ++ replace1 p rep X := by
  simp [replace1, h]

theorem replace1_cons_ne {c p : Char} (rep X : List Char) (h : ¬c = p) :
    replace1 p rep (c :: X) = c :: replace1 p rep X := by
  simp [replace1, h]

theorem replace2_cons2_eq {c p d q : Char} (rep X : List Char) (h1 : c = p) (h2 : d = q) :
    replace2 p q rep (c :: d :: X) = rep ++ replace2 p q rep X := by
  simp [replace2, h1, h2]

theorem replace2_cons2_ne {c p d q : Char} (rep X : List Char) (h : ¬(c = p ∧ d = q)) :
    replace2 p q rep (c :: d :: X) = c :: replace2 p q rep (d :: X) := by
  simp [replace2, h]

theorem replace2_cons_ne {c p : Char} (q : Char) (rep tail : List Char) (h : ¬c = p) :
    replace2 p q rep (c :: tail) = c :: replace2 p q rep tail := by
  cases tail with
  | nil => rfl
  | cons d rest =>
    have hx : ¬(c = p ∧ d = q) := fun hx => h hx.1
    simp [replace2, hx]

theorem escChar_bs : escChar '\\' = ['\\', '\\'] := rfl

theorem escChar_slash : escChar '/' = ['\\', '/'] := rfl

theorem escChar_other {c : Char} (h1 : ¬c = '\\') (h2 : ¬c = '/') : escChar c = [c] := by
  simp [escChar, h1, h2]

theorem halfChar_bs : halfChar '\\' = ['\\'] := rfl

theorem halfChar_slash : halfChar '/' = ['\\', '/'] := rfl

theorem halfChar_other {c : Char} (h1 : ¬c = '\\') (h2 : ¬c = '/') : halfChar c = [c] := by
  simp [halfChar, h1, h2]

theorem escapeData_eq_flatMap (s : List Char) : escapeData s = s.flatMap escChar := by
  induction s with
  | nil => rfl
  | cons c rest ih =>
    unfold escapeData at ih ⊢
    by_cases hb : c = '\\'
    · subst hb
      rw [replace1_cons_eq _ _ rfl]
      show replace1 '/' ['\\', '/'] ('\\' :: '\\' :: replace1 '\\' ['\\', '\\'] rest)
        = ('\\' :: rest).flatMap escChar
      rw [replace1_cons_ne _ _ (by decide), replace1_cons_ne _ _ (by decide), ih,
        List.flatMap_cons, escChar_bs]
      rfl
    · by_cases hs : c = '/'
      · subst hs
        rw [replace1_cons_ne _ _ (by decide), replace1_cons_eq _ _ rfl, ih,
          List.flatMap_cons, escChar_slash]
        try rfl
      · rw [replace1_cons_ne _ _ hb, replace1_cons_ne _ _ hs, ih,
          List.flatMap_cons, escChar_other hb hs]
        try rfl

theorem collapse_flatMap (s : List Char) :
    replace2 '\\' '\\' ['\\'] (s.flatMap escChar) = s.flatMap halfChar := by
  induction s with
  | nil => rfl
  | cons c rest ih =>
    by_cases hb : c = '\\'
    · subst hb
      rw [List.flatMap_cons, List.flatMap_cons, escChar_bs, halfChar_bs]
      show replace2 '\\' '\\' ['\\'] ('\\' :: '\\' :: rest.flatMap escChar)
        = '\\' :: rest.flatMap halfChar
      rw [replace2_cons2_eq _ _ rfl rfl, ih]
      rfl
    · by_cases hs : c = '/'
      · subst hs
        rw [List.flatMap_cons, List.flatMap_cons, escChar_slash, halfChar_slash]
        show replace2 '\\' '\\' ['\\'] ('\\' :: '/' :: rest.flatMap escChar)
          = '\\' :: '/' :: rest.flatMap halfChar
        rw [replace2_cons2_ne _ _ (by decide), replace2_cons_ne _ _ _ (by decide), ih]
      · rw [List.flatMap_cons, List.flatMap_cons, escChar_other hb hs,
          halfChar_other hb hs]
        show replace2 '\\' '\\' ['\\'] (c :: rest.flatMap escChar)
          = c :: rest.flatMap halfChar
        rw [replace2_cons_ne _ _ _ hb, ih]

theorem flatMap_halfChar_head (s : List Char) :
    (s.flatMap halfChar).head? ≠ some '/' := by
  cases s with
  | nil => simp
  | cons c rest =>
    by_cases hb : c = '\\'
    · simp [halfChar, hb]
    · by_cases hs : c = '/'
      · simp [halfChar, hb, hs]
      · simp [halfChar, hb, hs]

theorem expand_flatMap (s : List Char) :
    replace2 '\\' '/' ['/'] (s.flatMap halfChar) = s := by
  induction s with
  | nil => rfl
  | cons c rest ih =>
    by_cases hb : c = '\\'
    · subst hb
      rw [List.flatMap_cons, halfChar_bs]
      show replace2 '\\' '/' ['/'] ('\\' :: rest.flatMap halfChar) = '\\' :: rest
      have hhead := flatMap_halfChar_head rest
      cases hrest : rest.flatMap halfChar with
      | nil =>
        rw [hrest] at ih
        simp only [replace2] at ih
        rw [← ih]
        rfl
      | cons d tail =>
        rw [hrest] at ih hhead
        have hd : ¬(('\\' : Char) = '\\' ∧ d = '/') := by
          intro h
          exact hhead (by simp [h.2])
        rw [replace2_cons2_ne _ _ hd, ih]
    · by_cases hs : c = '/'
      · subst hs
        rw [List.flatMap_cons, halfChar_slash]
        show replace2 '\\' '/' ['/'] ('\\' :: '/' :: rest.flatMap halfChar) = '/' :: rest
        rw [replace2_cons2_eq _ _ rfl rfl, ih]
        rfl
      · rw [List.flatMap_cons, halfChar_other hb hs]
        show replace2 '\\' '/' ['/'] (c :: rest.flatMap halfChar) = c :: rest
        rw [replace2_cons_ne _ _ _ hb, ih]

theorem validateLoop_nil (last : Option Char) :
    validateLoop last [] = !(last == some '\\' || last == some '/') := rfl

theorem validateLoop_esc_nil {ch : Char} (h : ¬(ch ≠ '/' ∧ ch ≠ '\\')) :
    validateLoop (some '\\') [ch] = true := by
  simp [validateLoop, h]

theorem validateLoop_esc_cons {ch : Char} (c : Char) (rest2 : List Char)
    (h : ¬(ch ≠ '/' ∧ ch ≠ '\\')) :
    validateLoop (some '\\') (ch :: c :: rest2) = validateLoop (some c) rest2 := by
  simp [validateLoop, h]

theorem validateLoop_norm {last : Option Char} {ch : Char} (rest : List Char)
    (h1 : last ≠ some '\\') (h2 : ¬ch = '/') :
    validateLoop last (ch :: rest) = validateLoop (some ch) rest := by
  have hl : (last == some '\\') = false := by
    simp only [beq_eq_false_iff_ne, ne_eq]; exact h1
  cases rest <;> simp [validateLoop, hl, h2]

theorem validate_escaped_flatMap (s : List Char) :
    validateEscaped (s.flatMap escChar) = true
      ∧ ∀ last : Option Char, last ≠ some '\\' → last ≠ some '/' →
          validateLoop last (s.flatMap escChar) = true := by
  induction s with
  | nil =>
    refine ⟨rfl, ?_⟩
    intro last h1 h2
    show validateLoop last [] = true
    rw [validateLoop_nil]
    have hc1 : (last == some '\\') = false := by
      simp only [beq_eq_false_iff_ne, ne_eq]; exact h1
    have hc2 : (last == some '/') = false := by
      simp only [beq_eq_false_iff_ne, ne_eq]; exact h2
    simp [hc1, hc2]
  | cons c rest ih =>
    obtain ⟨ihP, ihQ⟩ := ih
    have escCase : ∀ d : Char, (d = '/' ∨ d = '\\') →
        validateLoop (some '\\') (d :: rest.flatMap escChar) = true := by
      intro d hd
      have hguard : ¬(d ≠ '/' ∧ d ≠ '\\') := by
        rcases hd with h | h <;> simp [h]
      cases hrest : rest.flatMap escChar with
      | nil => exact validateLoop_esc_nil hguard
      | cons e tail =>
        rw [validateLoop_esc_cons e tail hguard]
        have := ihP
        rw [hrest] at this
        simpa [validateEscaped] using this
    by_cases hb : c = '\\'
    · subst hb
      refine ⟨?_, ?_⟩
      · rw [List.flatMap_cons, escChar_bs]
        show validateLoop (some '\\') ('\\' :: rest.flatMap escChar) = true
        exact escCase '\\' (Or.inr rfl)
      · intro last h1 _
        rw [List.flatMap_cons, escChar_bs]
        show validateLoop last ('\\' :: '\\' :: rest.flatMap escChar) = true
        rw [validateLoop_norm _ h1 (by decide)]
        exact escCase '\\' (Or.inr rfl)
    · by_cases hs : c = '/'
      · subst hs
        refine ⟨?_, ?_⟩
        · rw [List.flatMap_cons, escChar_slash]
          show validateLoop (some '\\') ('/' :: rest.flatMap escChar) = true
          exact escCase '/' (Or.inl rfl)
        · intro last h1 _
          rw [List.flatMap_cons, escChar_slash]
          show validateLoop last ('\\' :: '/' :: rest.flatMap escChar) = true
          rw [validateLoop_norm _ h1 (by decide)]
          exact escCase '/' (Or.inl rfl)
      · have hmain : validateLoop (some c) (rest.flatMap escChar) = true :=
          ihQ (some c) (by simp [hb]) (by simp [hs])
        refine ⟨?_, ?_⟩
        · rw [List.flatMap_cons, escChar_other hb hs]
          show validateLoop (some c) (rest.flatMap escChar) = true
          exact hmain
        · intro last h1 _
          rw [List.flatMap_cons, escChar_other hb hs]
          show validateLoop last (c :: rest.flatMap escChar) = true
          rw [validateLoop_norm _ h1 hs]
          exact hmain

theorem unescape_escape (s : List Char) :
    unescapeData (escapeData s) = Except.ok s := by
  rw [escapeData_eq_flatMap]
  simp only [unescapeData, (validate_escaped_flatMap s).1, if_true]
  rw [collapse_flatMap, expand_flatMap]

theorem natToStringAux_eq (fuel : Nat) : ∀ n : Nat, n ≤ fuel →
    natToStringAux fuel n = ((Nat.digits 10 n).map Nat.digitChar).reverse := by
  induction fuel with
  | zero =>
    intro n hn
    have : n = 0 := Nat.le_zero.mp hn
    subst this
    simp [natToStringAux]
  | succ fuel ih =>
    intro n hn
    by_cases hz : n = 0
    · subst hz
      simp [natToStringAux]
    · have hpos : 0 < n := Nat.pos_of_ne_zero hz
      have hlt : n / 10 < n := Nat.div_lt_self hpos (by norm_num)
      rw [natToStringAux, if_neg hz, ih (n / 10) (by omega),
        Nat.digits_def' (by norm_num : (1 : ℕ) < 10) hpos]
      simp

theorem digitChar_isDigit {d : Nat} (h : d < 10) : (Nat.digitChar d).isDigit = true := by
  interval_cases d <;> decide

theorem digitChar_toNat {d : Nat} (h : d < 10) : (Nat.digitChar d).toNat = 48 + d := by
  interval_cases d <;> decide

theorem digitChar_ne_plus {d : Nat} (h : d < 10) : ¬Nat.digitChar d = '+' := by
  interval_cases d <;> decide

theorem digitChar_ne_slash {d : Nat} (h : d < 10) : ¬Nat.digitChar d = '/' := by
  interval_cases d <;> decide

theorem decimalValue_digits : ∀ L : List Nat, (∀ d ∈ L, d < 10) →
    decimalValue ((L.map Nat.digitChar).reverse) = Nat.ofDigits 10 L := by
  intro L hL
  rw [decimalValue, List.foldl_reverse]
  induction L with
  | nil => simp
  | cons d L ih =>
    have hd : d < 10 := hL d (by simp)
    have hL2 : ∀ x ∈ L, x < 10 := fun x hx => hL x (by simp [hx])
    simp only [List.map_cons, List.foldr_cons, ih hL2, Nat.ofDigits_cons,
      digitChar_toNat hd]
    omega

theorem natToString_pos_eq {n : Nat} (h : 0 < n) :
    natToString n = ((Nat.digits 10 n).map Nat.digitChar).reverse := by
  rw [natToString, if_neg (Nat.pos_iff_ne_zero.mp h), natToStringAux_eq n n le_rfl]

theorem natToString_all_digits (n : Nat) : (natToString n).all Char.isDigit = true := by
  by_cases hz : n = 0
  · subst hz; decide
  · rw [natToString_pos_eq (Nat.pos_of_ne_zero hz)]
    rw [List.all_eq_true]
    intro c hc
    rw [List.mem_reverse, List.mem_map] at hc
    obtain ⟨d, hd, rfl⟩ := hc
    exact digitChar_isDigit (Nat.digits_lt_base (by norm_num) hd)

theorem natToString_ne_nil (n : Nat) : natToString n ≠ [] := by
  by_cases hz : n = 0
  · subst hz; decide
  · rw [natToString_pos_eq (Nat.pos_of_ne_zero hz)]
    simp [Nat.digits_ne_nil_iff_ne_zero.mpr hz]

theorem natToString_no_slash (n : Nat) : ∀ c ∈ natToString n, ¬c = '/' := by
  intro c hc
  have hall := natToString_all_digits n
  rw [List.all_eq_true] at hall
  have hd := hall c hc
  intro hcs
  subst hcs
  exact absurd hd (by decide)

theorem decimalValue_natToString (n : Nat) : decimalValue (natToString n) = n := by
  by_cases hz : n = 0
  · subst hz; decide
  · rw [natToString_pos_eq (Nat.pos_of_ne_zero hz),
      decimalValue_digits _ (fun d hd => Nat.digits_lt_base (by norm_num) hd),
      Nat.ofDigits_digits]

theorem parseU32_natToString {n : Nat} (h : n ≤ U32_MAX) :
    parseU32 (natToString n) = some n := by
  have hne := natToString_ne_nil n
  have hplus : (natToString n).head? ≠ some '+' := by
    cases hs : natToString n with
    | nil => exact absurd hs hne
    | cons c rest =>
      have hall := natToString_all_digits n
      rw [hs, List.all_eq_true] at hall
      have hc := hall c (by simp)
      simp only [List.head?_cons, ne_eq, Option.some.injEq]
      intro hcp
      rw [hcp] at hc
      exact absurd hc (by decide)
  rw [parseU32]
  simp only [if_neg hplus]
  rw [if_pos ⟨hne, natToString_all_digits n, by rw [decimalValue_natToString]; exact h⟩,
    decimalValue_natToString]

theorem splitOn_slash_append (A B : List Char) (h : ∀ c ∈ A, ¬c = '/') :
    (A ++ '/' :: B).splitOn '/' = A :: B.splitOn '/' := by
  simp only [List.splitOn]
  exact List.splitOnP_first (fun x => x == '/') A
    (fun x hx => by simpa using h x hx) '/' (by simp) B

/-- The on-wire shape of a data message with session, position and raw
(escaped) payload part p; p may itself contain slashes. -/
def rawDataMsg (session position : Nat) (p : List Char) : List Char :=
  '/' :: (("data".toList
    ++ '/' :: (natToString session
    ++ '/' :: (natToString position
    ++ '/' :: p))) ++ ['/'])

theorem msgToString_data_eq (session position : Nat) (payload : List Char) :
    msgToString (Message.data session position payload)
      = rawDataMsg session position (escapeData payload) := by
  simp [msgToString, rawDataMsg, Message.data]

theorem fromStr_rawData (session position : Nat) (hs : session ≤ U32_MAX)
    (hp : position ≤ U32_MAX) (p : List Char) :
    fromStr (rawDataMsg session position p)
      = match unescapeData p with
        | Except.ok payload => Except.ok ⟨session, MessageType.data position payload⟩
        | Except.error e => Except.error e := by
  have hguard : ¬((rawDataMsg session position p).length < 2
      ∨ (rawDataMsg session position p).head? ≠ some '/'
      ∨ (rawDataMsg session position p).getLast? ≠ some '/') := by
    push_neg
    refine ⟨?_, rfl, ?_⟩
    · simp [rawDataMsg]
    · show (('/' :: _) ++ ['/']).getLast? = some '/'
      rw [List.getLast?_concat]
  have hinner : (((rawDataMsg session position p).drop 1).dropLast)
      = "data".toList ++ '/' :: (natToString session
          ++ '/' :: (natToString position ++ '/' :: p)) := by
    show ((("data".toList ++ _) ++ ['/']).dropLast = _)
    rw [List.dropLast_concat]
  have hsplit : ((((rawDataMsg session position p).drop 1).dropLast).splitOn '/')
      = "data".toList :: natToString session :: natToString position
          :: p.splitOn '/' := by
    rw [hinner, splitOn_slash_append _ _ (by decide),
      splitOn_slash_append _ _ (natToString_no_slash session),
      splitOn_slash_append _ _ (natToString_no_slash position)]
  rw [fromStr, if_neg hguard, hsplit]
  simp only [parseU32_natToString hs, parseU32_natToString hp]
  rw [if_neg (by decide : ¬("data".toList = "connect".toList)),
    if_neg (by decide : ¬("data".toList = "close".toList)),
    if_neg (by decide : ¬("data".toList = "ack".toList))]
  simp only [if_true, eq_self_iff_true, if_pos]
  rw [List.intercalate_splitOn]
  cases unescapeData p <;> simp

/-- Whether a payload part contains a slash immediately preceded by a
character that is neither a slash nor a backslash (such a slash is
necessarily an unescaped one). -/
def hasBadPair : List Char → Bool
  | a :: b :: rest =>
    if b = '/' ∧ ¬a = '/' ∧ ¬a = '\\' then true else hasBadPair (b :: rest)
  | _ => false

/-- Whether a payload part contains an unescaped slash: scanning left to
right, a backslash escapes the character after it; a slash seen outside an
escape is unescaped. -/
def hasUnescapedSlash : List Char → Bool
  | [] => false
  | c :: rest =>
    if c = '\\' then
      match rest with
      | [] => false
      | _ :: rest2 => hasUnescapedSlash rest2
    else if c = '/' then true
    else hasUnescapedSlash rest

theorem validateLoop_no_badPair : ∀ (rest : List Char) (c : Char),
    validateLoop (some c) rest = true → hasBadPair (c :: rest) = false
  | [], _, _ => rfl
  | ch :: rest, c, h => by
    by_cases hb : c = '\\'
    · subst hb
      by_cases hg : ch ≠ '/' ∧ ch ≠ '\\'
      · exfalso
        cases rest <;> simp [validateLoop, hg] at h
      · have hch : ch = '/' ∨ ch = '\\' := by
          by_contra hcon
          push_neg at hcon
          exact hg ⟨hcon.1, hcon.2⟩
        cases rest with
        | nil => simp [hasBadPair]
        | cons e tail =>
          rw [validateLoop_esc_cons e tail hg] at h
          have hrec := validateLoop_no_badPair tail e h
          rcases hch with h1 | h1 <;> subst h1 <;> simp [hasBadPair, hrec]
    · by_cases hch : ch = '/'
      · exfalso
        have hfalse : validateLoop (some c) (ch :: rest) = false := by
          subst hch
          have hl : (some c == some '\\') = false := by simp [hb]
          cases rest <;> simp [validateLoop, hl]
        rw [hfalse] at h
        exact Bool.noConfusion h
      · have h2 : validateLoop (some ch) rest = true := by
          rw [validateLoop_norm rest (by simp [hb]) hch] at h
          exact h
        have hrec := validateLoop_no_badPair rest ch h2
        simp [hasBadPair, hch, hrec]
termination_by rest _ _ => rest.length

theorem badPair_not_validated (s : List Char) (h : hasBadPair s = true) :
    validateEscaped s = false := by
  match s with
  | [] => exact absurd h (by decide)
  | [c] => exact absurd h (by simp [hasBadPair])
  | c :: ch :: rest =>
    cases hv : validateEscaped (c :: ch :: rest) with
    | false => rfl
    | true =>
      have := validateLoop_no_badPair (ch :: rest) c hv
      rw [this] at h
      exact Bool.noConfusion h

theorem badPair_unescape_error (s : List Char) (h : hasBadPair s = true) :
    unescapeData s = Except.error ParseMessageError.badDataFormat := by
  rw [unescapeData, badPair_not_validated s h]
  rfl

end Lrcp

namespace Lrcp

/-- MAX_MESSAGE_SIZE from lrcp/mod.rs. -/
def MAX_MESSAGE_SIZE : Nat := 1000

/-- MAX_DATA_SIZE from lrcp/mod.rs (the comment there says it exists to make
sure messages stay within MAX_MESSAGE_SIZE). -/
def MAX_DATA_SIZE : Nat := 910

/-- One more than the largest u32; u32 wrapping is reduction modulo this. -/
def U32_MOD : Nat := 4294967296

/-- State of the server side of one LRCP connection as maintained by
listen_to_server (connection.rs): the cumulative ack counter and the bytes
delivered so far to the application (everything pushed into data_to_client,
written in order onto the duplex stream by listen_to_client). -/
structure ConnState where
  ack : Nat
  delivered : List Char
deriving DecidableEq, Repr

/-- One step of listen_to_server on InternalMessage::Data (connection.rs
lines 90 to 126).  Returns the new state and the ack message sent back on
the socket; none models the buffer-full case in which the message is
dropped without a reply (the try_send Full branch executes continue). -/
def listenDataStep (session : Nat) (st : ConnState) (position : Nat)
    (text : List Char) (bufferFull : Bool) : ConnState × Option Message :=
  if position ≤ st.ack then
    let oldData := st.ack - position
    if oldData < text.length then
      if bufferFull then (st, none)
      else
        let relevant := text.drop oldData
        let st2 : ConnState :=
          ⟨(st.ack + relevant.length) % U32_MOD, st.delivered ++ relevant⟩
        (st2, some (Message.ack session st2.ack))
    else (st, some (Message.ack session st.ack))
  else (st, some (Message.ack session st.ack))

/-- The MessageType::Connect arm of the listener loop (listener.rs lines 62
to 84): a vacant session id is inserted bound to the sender address, a known
id is left untouched, and in either case the reply written to the socket is
Message::ack(session, 0).  Addresses are modelled as Nat. -/
def connectStep (sessions : List (Nat × Nat)) (session : Nat) (addr : Nat) :
    List (Nat × Nat) × Message :=
  let sessions2 :=
    if (sessions.lookup session).isNone then (session, addr) :: sessions
    else sessions
  (sessions2, Message.ack session 0)

/-- Claim C3: on an open session, a Data message at position pos with
payload p, when pos is at most the delivered length A and the inbound buffer
is not full, delivers exactly the suffix p[A-pos..], advances A by its
length, and acks the new A; reprocessing the same message afterwards leaves
the state unchanged and re-acks the same length. -/
theorem C3_data_delivery (session : Nat) (st : ConnState) (position : Nat)
    (text : List Char) (hpos : position ≤ st.ack)
    (hrange : st.ack + text.length < U32_MOD) :
    (listenDataStep session st position text false).1.delivered
        = st.delivered ++ text.drop (st.ack - position)
    ∧ (listenDataStep session st position text false).1.ack
        = st.ack + (text.drop (st.ack - position)).length
    ∧ (listenDataStep session st position text false).2
        = some (Message.ack session
            (st.ack + (text.drop (st.ack - position)).length))
    ∧ listenDataStep session (listenDataStep session st position text false).1
          position text false
        = ((listenDataStep session st position text false).1,
            some (Message.ack session
              (listenDataStep session st position text false).1.ack)) := by
  have hdroplen : (text.drop (st.ack - position)).length
      = text.length - (st.ack - position) := List.length_drop _ _
  by_cases hlt : st.ack - position < text.length
  · have hmod : (st.ack + (text.drop (st.ack - position)).length) % U32_MOD
        = st.ack + (text.drop (st.ack - position)).length := by
      apply Nat.mod_eq_of_lt
      omega
    have hstep : listenDataStep session st position text false
        = (⟨st.ack + (text.drop (st.ack - position)).length,
            st.delivered ++ text.drop (st.ack - position)⟩,
           some (Message.ack session
             (st.ack + (text.drop (st.ack - position)).length))) := by
      simp only [listenDataStep, if_pos hpos, if_pos hlt, if_neg (by decide : ¬False)]
      have hmod2 : (st.ack + (text.length - (st.ack - position))) % U32_MOD
          = st.ack + (text.length - (st.ack - position)) :=
        Nat.mod_eq_of_lt (by omega)
      simp [hmod2, List.length_drop]
    rw [hstep]
    refine ⟨rfl, rfl, rfl, ?_⟩
    have hpos2 : position ≤ st.ack + (text.drop (st.ack - position)).length := by omega
    have hnotlt : ¬(st.ack + (text.drop (st.ack - position)).length - position
        < text.length) := by omega
    simp only [listenDataStep, if_pos hpos2, if_neg hnotlt]
  · have hdrop : text.drop (st.ack - position) = [] :=
      List.drop_eq_nil_of_le (by omega)
    have hstep : listenDataStep session st position text false
        = (st, some (Message.ack session st.ack)) := by
      simp only [listenDataStep, if_pos hpos, if_neg hlt]
    rw [hstep, hdrop]
    refine ⟨by simp, by simp, by simp, ?_⟩
    simp only [listenDataStep, if_pos hpos, if_neg hlt]

/-- Witness for C3 at a concrete input: the scenario of the spec, first
delivery of hello on a fresh session. -/
theorem C3_witness :
    (listenDataStep 12345 ⟨0, []⟩ 0 "hello".toList false).1.delivered
        = "hello".toList
    ∧ (listenDataStep 12345 ⟨0, []⟩ 0 "hello".toList false).1.ack = 5
    ∧ listenDataStep 12345 (listenDataStep 12345 ⟨0, []⟩ 0 "hello".toList false).1
          0 "hello".toList false
        = ((listenDataStep 12345 ⟨0, []⟩ 0 "hello".toList false).1,
            some (Message.ack 12345 5)) := by
  have h := C3_data_delivery 12345 ⟨0, []⟩ 0 "hello".toList (by decide) (by decide)
  refine ⟨?_, ?_, ?_⟩
  · simpa using h.1
  · simpa using h.2.1
  · have h4 := h.2.2.2
    have hack : (listenDataStep 12345 ⟨0, []⟩ 0 "hello".toList false).1.ack = 5 := by
      simpa using h.2.1
    rw [hack] at h4
    exact h4

theorem escape_replicate_slash_length (n : Nat) :
    (escapeData (List.replicate n '/')).length = 2 * n := by
  rw [escapeData_eq_flatMap]
  induction n with
  | zero => rfl
  | succ n ih =>
    rw [List.replicate_succ, List.flatMap_cons, escChar_slash]
    simp only [List.length_append, List.length_cons, List.length_nil] at *
    omega

/-- Claim C4 (code bug): the sender fragments at MAX_DATA_SIZE = 910 raw
bytes, but escaping can double the payload on the wire: a write of 910
slash characters produces a single data datagram of 1831 bytes, exceeding
MAX_MESSAGE_SIZE = 1000.  data_sender (connection.rs lines 175 to 235)
serializes Message::data with the whole unacked suffix of one block read
from the application, and listen_to_client caps one block at 910 raw
bytes before escaping. -/
theorem C4_oversized_datagram :
    (List.replicate MAX_DATA_SIZE '/').length ≤ MAX_DATA_SIZE
    ∧ (msgToString (Message.data 0 0 (List.replicate MAX_DATA_SIZE '/'))).length = 1831
    ∧ MAX_MESSAGE_SIZE < 1831 := by
  refine ⟨by simp, ?_, by decide⟩
  have h := escape_replicate_slash_length MAX_DATA_SIZE
  have h0 : natToString 0 = ['0'] := rfl
  simp only [msgToString, Message.data]
  simp only [h0, List.length_cons, List.length_append, h]
  norm_num [MAX_DATA_SIZE]

/-- Claim C5 counterexample: a session known to the listener whose current
cumulative ack length is 5 still receives the fixed reply ack 0 on a
duplicate Connect, not ack 5. -/
theorem C5_counterexample :
    (listenDataStep 12345 ⟨0, []⟩ 0 "hello".toList false).1.ack = 5
    ∧ (connectStep [(12345, 7)] 12345 7).2 = Message.ack 12345 0
    ∧ Message.ack 12345 0 ≠ Message.ack 12345 5 := by decide

/-- Claim C5 amended: for every Connect message, known session or not, the
listener replies with Message::ack(session, 0), a fixed length of zero. -/
theorem C5_connect_always_acks_zero (sessions : List (Nat × Nat))
    (session addr : Nat) :
    (connectStep sessions session addr).2 = Message.ack session 0 := rfl

/-- Claim C6 counterexample: the wire message /data/1/2//x/ has payload part
/x (the rejoined parts after the position field), which contains an
unescaped slash, yet parsing succeeds and yields payload /x. -/
theorem C6_counterexample :
    rawDataMsg 1 2 "/x".toList = "/data/1/2//x/".toList
    ∧ hasUnescapedSlash "/x".toList = true
    ∧ fromStr "/data/1/2//x/".toList = Except.ok (Message.data 1 2 "/x".toList) := by
  decide

/-- Claim C6 amended: serialization followed by parsing restores every data
payload unchanged; and a data message whose payload part contains a slash
immediately preceded by a character other than slash or backslash fails to
parse with BadDataFormat.  (An unescaped slash at the very start of the
payload part, or directly after an escape pair, escapes the validation and
is accepted, as the counterexample shows.) -/
theorem C6_roundtrip_and_rejection :
    (∀ (session position : Nat) (payload : List Char),
        session ≤ U32_MAX → position ≤ U32_MAX →
        fromStr (msgToString (Message.data session position payload))
          = Except.ok (Message.data session position payload))
    ∧ (∀ (session position : Nat) (p : List Char),
        session ≤ U32_MAX → position ≤ U32_MAX → hasBadPair p = true →
        fromStr (rawDataMsg session position p)
          = Except.error ParseMessageError.badDataFormat) := by
  constructor
  · intro session position payload hs hp
    rw [msgToString_data_eq, fromStr_rawData session position hs hp,
      unescape_escape]
    rfl
  · intro session position p hs hp hbad
    rw [fromStr_rawData session position hs hp, badPair_unescape_error p hbad]

/-- Witness for C6 at concrete inputs: a payload with a backslash and a
slash round-trips, and the raw payload part x/y is rejected. -/
theorem C6_witness :
    fromStr (msgToString (Message.data 5 0 "a\\b/c".toList))
        = Except.ok (Message.data 5 0 "a\\b/c".toList)
    ∧ fromStr (rawDataMsg 9 9 "x/y".toList)
        = Except.error ParseMessageError.badDataFormat :=
  ⟨C6_roundtrip_and_rejection.1 5 0 "a\\b/c".toList (by decide) (by decide),
   C6_roundtrip_and_rejection.2 9 9 "x/y".toList (by decide) (by decide) (by decide)⟩

end Lrcp

namespace Speed

/-- DAY_IN_SECS from systems/record.rs. -/
def DAY_IN_SECS : Nat := 86400

/-- SPEED_FACTOR from protocol/message.rs. -/
def SPEED_FACTOR : Nat := 100

/-- One more than the largest u16; u16 wrapping is reduction modulo this. -/
def U16_MOD : Nat := 65536

/-- Largest u16 value; the try_into u16 of the computed speed in
RoadWorker::record fails above this and aborts the record call. -/
def U16_MAX : Nat := 65535

/-- Round half up of the nonnegative rational a / b (for b positive):
floor ((2a + b) / (2b)).  This is the exact-rational reading of the
rounding the claims speak of; the code computes in IEEE-754 binary64
(computeSpeed below), which differs from this at some exact half-integer
speeds because the divisions are themselves rounded. -/
def roundHalfUp (a b : Nat) : Nat := (2 * a + b) / (2 * b)

/-- A finite nonnegative IEEE-754 binary64 value, as significand times
two to the exponent.  Nonzero values produced below are normalized
(2^52 <= m < 2^53); the exponent is unbounded, which is faithful here
because every value arising in the speed computation lies well inside
the normal range of binary64 (between roughly 2^-22 and 2^28 for
distance < 2^16 and 0 < dt < 2^32), so no overflow, underflow or
subnormal rounding can occur. -/
structure Fp where
  m : Nat
  e : Int
deriving DecidableEq, Repr

/-- Normalize by doubling the significand until it reaches 2^52 (64 steps
of fuel suffice for any nonzero input below 2^53). -/
def normUp : Nat → Nat → Int → Fp
  | 0, m, e => ⟨m, e⟩
  | fuel + 1, m, e => if m < 2 ^ 52 then normUp fuel (2 * m) (e - 1) else ⟨m, e⟩

/-- Conversion of a small natural number to binary64 (Rust as f64).  Exact
for n < 2^53, which covers every u16 and u32 the speed daemon converts. -/
def natToFp (n : Nat) : Fp := normUp 64 n 0

/-- Round to nearest, ties to even, of the rational (q * den + r) / den,
given 0 <= r < den: the IEEE default rounding applied to an exact
quotient q remainder r. -/
def rne (q r den : Nat) : Nat :=
  if 2 * r < den then q
  else if den < 2 * r then q + 1
  else if q % 2 = 0 then q else q + 1

/-- Correctly rounded binary64 division (round to nearest, ties to even)
of normalized nonnegative operands.  For m_a >= m_b the exact quotient
m_a/m_b lies in [1, 2), so the result significand is the rounding of
m_a * 2^52 / m_b; for m_a < m_b it lies in (1/2, 1) and the result
significand is the rounding of m_a * 2^53 / m_b.  A rounding that lands
on 2^53 is renormalized one binade up, which is still the nearest
representable value since the coarser grid has twice the spacing. -/
def fpDiv (a b : Fp) : Fp :=
  if b.m ≤ a.m then
    let q := rne (a.m * 2 ^ 52 / b.m) (a.m * 2 ^ 52 % b.m) b.m
    if q < 2 ^ 53 then ⟨q, a.e - b.e - 52⟩ else ⟨2 ^ 52, a.e - b.e - 51⟩
  else
    let q := rne (a.m * 2 ^ 53 / b.m) (a.m * 2 ^ 53 % b.m) b.m
    if q < 2 ^ 53 then ⟨q, a.e - b.e - 53⟩ else ⟨2 ^ 52, a.e - b.e - 52⟩

/-- Rust f64::round on a nonnegative finite value, followed by the cast
to integer: round to the nearest integer, half away from zero.  For a
nonnegative exponent the value is already an integer; otherwise the
fractional bits decide a half-up rounding. -/
def fpRoundNat (a : Fp) : Nat :=
  match a.e with
  | Int.ofNat k => a.m * 2 ^ k
  | Int.negSucc s =>
      a.m / 2 ^ (s + 1) + (if 2 ^ (s + 1) ≤ 2 * (a.m % 2 ^ (s + 1)) then 1 else 0)

/-- The speed computed in RoadWorker::record (record.rs lines 184 to 189):
time = dt as f64 / 60f64 / 60f64, then (distance as f64 / time).round(),
every operation in IEEE-754 binary64 with the default rounding.  The
conversions are exact (u16 and u32 fit in 53 bits) and 60f64 is exact, so
the three divisions and the final half-away-from-zero rounding are the
only roundings, modelled bit-exactly by fpDiv and fpRoundNat. -/
def computeSpeed (distance dt : Nat) : Nat :=
  fpRoundNat (fpDiv (natToFp distance)
    (fpDiv (fpDiv (natToFp dt) (natToFp 60)) (natToFp 60)))

/-- The double rounding is observable: 3 miles in 96 seconds is exactly
112.5 mph, but 96/60 rounds up, so the program computes
112.49999999999998578... and rounds it to 112, one below the exact
half-up rounding. -/
example : computeSpeed 3 96 = 112 ∧ roundHalfUp (3600 * 3) 96 = 113 := by
  decide

/-- Sanity checks of the binary64 model against the concrete values the
program produces: an exact case, an inexact case, an exact .5 case
(rounded away from zero), and a tiny result. -/
example : computeSpeed 1 45 = 80 ∧ computeSpeed 100 3600 = 100
    ∧ computeSpeed 1 7200 = 1 ∧ computeSpeed 60000 1 = 216000000
    ∧ computeSpeed 1 4294967295 = 0 := by
  decide

/-- Dividing a zero significand gives a zero significand. -/
theorem fpDiv_mzero (e : Int) (b : Fp) : (fpDiv ⟨0, e⟩ b).m = 0 := by
  rcases Nat.eq_zero_or_pos b.m with hb | hb
  · simp [fpDiv, hb, rne]
  · have h1 : ¬ b.m ≤ (0 : Nat) := by omega
    simp [fpDiv, rne, h1, hb]

/-- Rounding a zero significand gives zero. -/
theorem fpRoundNat_mzero (a : Fp) (h : a.m = 0) : fpRoundNat a = 0 := by
  rcases a with ⟨m, e⟩
  simp only at h
  subst h
  cases e with
  | ofNat k => simp [fpRoundNat]
  | negSucc s => simp [fpRoundNat]

/-- Zero distance gives speed zero (0.0 divided by anything rounds to 0;
the code never reaches this case because of the distance == 0 guard). -/
theorem computeSpeed_zero (dt : Nat) : computeSpeed 0 dt = 0 := by
  have h0 : natToFp 0 = ⟨0, -64⟩ := by decide
  show fpRoundNat (fpDiv (natToFp 0)
    (fpDiv (fpDiv (natToFp dt) (natToFp 60)) (natToFp 60))) = 0
  rw [h0]
  exact fpRoundNat_mzero _ (fpDiv_mzero _ _)

/-- struct Ticket of systems/ticket.rs; speed is in miles per hour (the
wire representation multiplies by 100 later, in ToClient::ticket). -/
structure Ticket where
  plate : String
  road : Nat
  mile1 : Nat
  timestamp1 : Nat
  mile2 : Nat
  timestamp2 : Nat
  speed : Nat
deriving DecidableEq, Repr

/-- Lexicographic minimum on (timestamp, camera) pairs, the Ord instance of
Rust tuples used by min in record.rs line 195. -/
def pairMin (p q : Nat × Nat) : Nat × Nat :=
  if p.1 < q.1 ∨ (p.1 = q.1 ∧ p.2 ≤ q.2) then p else q

/-- Lexicographic maximum on (timestamp, camera) pairs (record.rs line 196). -/
def pairMax (p q : Nat × Nat) : Nat × Nat :=
  if p.1 < q.1 ∨ (p.1 = q.1 ∧ p.2 ≤ q.2) then q else p

/-- The inclusive range a..=b as a list (the day loops of record.rs). -/
def daysRange (a b : Nat) : List Nat :=
  List.range' a (b + 1 - a)

/-- Insert every day of the list for the plate into the shared ledger (the
second day loop of RoadWorker::record; DashSet insert ignores duplicates). -/
def insertDays (plate : String) (days : List Nat)
    (ledger : List (String × Nat)) : List (String × Nat) :=
  days.foldl (fun l day => if (plate, day) ∈ l then l else (plate, day) :: l) ledger

/-- The checking loop of RoadWorker::record (record.rs lines 182 to 220):
the new observation (camera, timestamp) is compared with every entry of the
per-plate records (the new entry included); a u16 overflow of the computed
speed returns from the whole call; a speeding pair yields a ticket unless
some day of its range is already in the ledger for this plate, in which
case the outer loop continues. -/
def recordLoop (speedLimit road : Nat) (plate : String) (camera timestamp : Nat) :
    List (Nat × Nat) → List (String × Nat) → List Ticket
      → List (String × Nat) × List Ticket
  | [], ledger, emitted => (ledger, emitted)
  | (entryCamera, entryTimestamp) :: rest, ledger, emitted =>
    let distance := max entryCamera camera - min entryCamera camera
    let dt := max entryTimestamp timestamp - min entryTimestamp timestamp
    if dt = 0 ∨ distance = 0 then
      recordLoop speedLimit road plate camera timestamp rest ledger emitted
    else
      let speed := computeSpeed distance dt
      if U16_MAX < speed then (ledger, emitted)
      else if speedLimit < speed then
        let start := pairMin (timestamp, camera) (entryTimestamp, entryCamera)
        let stop := pairMax (timestamp, camera) (entryTimestamp, entryCamera)
        let ticket : Ticket := ⟨plate, road, start.2, start.1, stop.2, stop.1, speed⟩
        let days := daysRange (start.1 / DAY_IN_SECS) (stop.1 / DAY_IN_SECS)
        if days.any (fun day => decide ((plate, day) ∈ ledger)) then
          recordLoop speedLimit road plate camera timestamp rest ledger emitted
        else
          recordLoop speedLimit road plate camera timestamp rest
            (insertDays plate days ledger) (emitted ++ [ticket])
      else
        recordLoop speedLimit road plate camera timestamp rest ledger emitted

/-- HashMap::insert on an association list: replace the value under an
existing key, else append the new pair. -/
def insertAssoc (records : List (Nat × Nat)) (camera timestamp : Nat) :
    List (Nat × Nat) :=
  if records.any (fun e => e.1 == camera) then
    records.map (fun e => if e.1 = camera then (camera, timestamp) else e)
  else records ++ [(camera, timestamp)]

/-- RoadWorker::record: insert the new report into the per-plate records,
then run the checking loop over all entries.  HashMap iteration is modelled
by the association-list order; where the order could matter the theorems
below quantify over permutations of the entries. -/
def record (speedLimit road : Nat) (plate : String) (records : List (Nat × Nat))
    (camera timestamp : Nat) (ledger : List (String × Nat))
    (emitted : List Ticket) :
    List (Nat × Nat) × List (String × Nat) × List Ticket :=
  let records2 := insertAssoc records camera timestamp
  let out := recordLoop speedLimit road plate camera timestamp records2 ledger emitted
  (records2, out.1, out.2)

/-- enum ToClientInternal of protocol/message.rs. -/
inductive ToClientMsg where
  | error (msg : List Char)
  | ticket (plate : List Char) (road : Nat) (firstRecord : Nat × Nat)
      (secondRecord : Nat × Nat) (speed : Nat)
  | heartbeat
deriving DecidableEq, Repr

/-- ToClient::ticket (protocol/message.rs lines 49 to 65): the stored wire
speed is the observed speed times SPEED_FACTOR, a u16 product (release
mode wrapping semantics, hence the reduction modulo 2^16). -/
def ToClient.ticket (plate : List Char) (road : Nat)
    (firstRecord secondRecord : Nat × Nat) (speed : Nat) : ToClientMsg :=
  ToClientMsg.ticket plate road firstRecord secondRecord
    ((speed * SPEED_FACTOR) % U16_MOD)

/-- Big-endian u16 byte pair (AsyncWriteExt::write_u16). -/
def u16be (v : Nat) : List Nat := [v / 256 % 256, v % 256]

/-- Big-endian u32 bytes (AsyncWriteExt::write_u32). -/
def u32be (v : Nat) : List Nat :=
  [v / 16777216 % 256, v / 65536 % 256, v / 256 % 256, v % 256]

/-- Length-prefixed string serialization (impl Serialize for &str in
protocol/serializer.rs); strings longer than 255 bytes fail with TooLong. -/
def serializeStr (s : List Char) : Except Unit (List Nat) :=
  if s.length ≤ 255 then Except.ok (s.length :: s.map Char.toNat)
  else Except.error ()

/-- impl Serialize for ToClient (protocol/serializer.rs lines 44 to 77). -/
def serializeToClient : ToClientMsg → Except Unit (List Nat)
  | ToClientMsg.heartbeat => Except.ok [0x41]
  | ToClientMsg.error msg => (serializeStr msg).map (fun b => 0x10 :: b)
  | ToClientMsg.ticket plate road f s speed =>
      (serializeStr plate).map (fun b =>
        0x21 :: b ++ u16be road ++ u16be f.1 ++ u32be f.2
          ++ u16be s.1 ++ u32be s.2 ++ u16be speed)

example : serializeToClient (ToClientMsg.ticket "UN1X".toList 66 (100, 123456)
    (110, 123816) 10000)
    = Except.ok [0x21, 0x04, 0x55, 0x4e, 0x31, 0x58, 0x00, 0x42, 0x00, 0x64,
        0x00, 0x01, 0xe2, 0x40, 0x00, 0x6e, 0x00, 0x01, 0xe3, 0xa8, 0x27, 0x10] := by
  decide

/-- Claim C7 counterexample: a ticket with observed speed 656 mph stores
wire speed 64, because the u16 product 656 * 100 = 65600 wraps modulo
2^16; the wire field does not equal the observed speed times 100. -/
theorem C7_counterexample :
    ToClient.ticket "A".toList 1 (0, 0) (1, 1) 656
      = ToClientMsg.ticket "A".toList 1 (0, 0) (1, 1) 64
    ∧ (656 : Nat) * 100 = 65600 ∧ (64 : Nat) ≠ 65600 := by decide

/-- Claim C7 amended: the 16-bit speed field on the wire is the observed
speed times 100 reduced modulo 2^16 (so it equals speed times 100 exactly
whenever the observed speed is at most 655 mph), and the serializer writes
that field big-endian as the final two bytes. -/
theorem C7_wire_speed (plate : List Char) (road : Nat)
    (f s : Nat × Nat) (speed : Nat) (hplate : plate.length ≤ 255) :
    serializeToClient (ToClient.ticket plate road f s speed)
      = Except.ok (0x21 :: (plate.length :: plate.map Char.toNat)
          ++ u16be road ++ u16be f.1 ++ u32be f.2 ++ u16be s.1 ++ u32be s.2
          ++ u16be ((speed * SPEED_FACTOR) % U16_MOD))
    ∧ 256 * (((speed * SPEED_FACTOR) % U16_MOD) / 256 % 256)
        + ((speed * SPEED_FACTOR) % U16_MOD) % 256
        = (speed * SPEED_FACTOR) % U16_MOD
    ∧ (speed ≤ 655 → (speed * SPEED_FACTOR) % U16_MOD = speed * SPEED_FACTOR) := by
  refine ⟨?_, ?_, ?_⟩
  · simp [serializeToClient, ToClient.ticket, serializeStr, hplate, Except.map,
      List.cons_append, List.append_assoc]
  · set w := (speed * SPEED_FACTOR) % U16_MOD with hw
    have hlt : w < 65536 := by
      rw [hw]
      exact Nat.mod_lt _ (by norm_num [U16_MOD])
    have hdiv : w / 256 < 256 := by omega
    rw [Nat.mod_eq_of_lt hdiv]
    omega
  · intro hsp
    apply Nat.mod_eq_of_lt
    have : speed * SPEED_FACTOR ≤ 655 * 100 := by
      simp only [SPEED_FACTOR]
      omega
    simp only [U16_MOD]
    omega

/-- Witness for C7 at the scenario of the spec: speed 80 serializes with
wire field 8000, written as the bytes 0x1f 0x40. -/
theorem C7_witness :
    serializeToClient (ToClient.ticket "UN1X".toList 123 (8, 0) (9, 45) 80)
      = Except.ok (0x21 :: (4 :: "UN1X".toList.map Char.toNat)
          ++ u16be 123 ++ u16be 8 ++ u32be 0 ++ u16be 9 ++ u32be 45
          ++ u16be 8000)
    ∧ (80 : Nat) ≤ 655 ∧ (80 * SPEED_FACTOR) % U16_MOD = 8000 := by
  have h := C7_wire_speed "UN1X".toList 123 (8, 0) (9, 45) 80 (by decide)
  refine ⟨?_, by decide, by decide⟩
  have h1 := h.1
  simpa using h1

end Speed

namespace Speed

theorem perm_pair_cases {α : Type} [DecidableEq α] (l : List α) (a b : α)
    (h : l.Perm [a, b]) : l = [a, b] ∨ l = [b, a] := by
  have hlen : l.length = 2 := by simpa using h.length_eq
  match l, hlen with
  | [x, y], _ =>
    have hx : x ∈ [a, b] := h.subset (by simp)
    rcases List.mem_pair.mp hx with h1 | h1
    · left
      rw [h1] at h ⊢
      have h2 : [y].Perm [b] := h.cons_inv
      rw [List.perm_singleton.mp h2]
    · right
      rw [h1] at h ⊢
      have hswap : ([a, b] : List α).Perm [b, a] := List.Perm.swap b a []
      have h2 : [y].Perm [a] := (h.trans hswap).cons_inv
      rw [List.perm_singleton.mp h2]

theorem mem_insertDays (p plate : String) (d : Nat) (days : List Nat)
    (ledger : List (String × Nat)) :
    (p, d) ∈ insertDays plate days ledger
      ↔ (p, d) ∈ ledger ∨ (p = plate ∧ d ∈ days) := by
  induction days generalizing ledger with
  | nil => simp [insertDays]
  | cons day days ih =>
    rw [insertDays, List.foldl_cons]
    by_cases hmem : (plate, day) ∈ ledger
    · rw [if_pos hmem]
      rw [show (List.foldl _ ledger days : List (String × Nat))
          = insertDays plate days ledger from rfl, ih]
      constructor
      · rintro (h | h)
        · exact Or.inl h
        · exact Or.inr ⟨h.1, by simp [h.2]⟩
      · rintro (h | ⟨rfl, hd⟩)
        · exact Or.inl h
        · rcases List.mem_cons.mp hd with rfl | hd
          · exact Or.inl hmem
          · exact Or.inr ⟨rfl, hd⟩
    · rw [if_neg hmem]
      rw [show (List.foldl _ ((plate, day) :: ledger) days : List (String × Nat))
          = insertDays plate days ((plate, day) :: ledger) from rfl, ih]
      constructor
      · rintro (h | h)
        · rcases List.mem_cons.mp h with heq | h
          · cases heq
            exact Or.inr ⟨rfl, by simp⟩
          · exact Or.inl h
        · exact Or.inr ⟨h.1, by simp [h.2]⟩
      · rintro (h | ⟨rfl, hd⟩)
        · exact Or.inl (List.mem_cons_of_mem _ h)
        · rcases List.mem_cons.mp hd with rfl | hd
          · exact Or.inl (List.mem_cons_self _ _)
          · exact Or.inr ⟨rfl, hd⟩

theorem ledger_subset_insertDays (plate : String) (days : List Nat)
    (ledger : List (String × Nat)) :
    ∀ x ∈ ledger, x ∈ insertDays plate days ledger := by
  intro x hx
  obtain ⟨p, d⟩ := x
  exact (mem_insertDays p plate d days ledger).mpr (Or.inl hx)

theorem mem_daysRange {a b d : Nat} (hab : a ≤ b) :
    d ∈ daysRange a b ↔ a ≤ d ∧ d ≤ b := by
  rw [daysRange, List.mem_range'_1]
  omega

/-- The first observation of a plate yields no ticket and leaves the ledger
unchanged: the only entry to compare with is the observation itself. -/
theorem record_first_observation (L road : Nat) (plate : String)
    (m1 t1 : Nat) (ledger : List (String × Nat)) :
    record L road plate [] m1 t1 ledger []
      = ([(m1, t1)], ledger, []) := by
  simp [record, insertAssoc, recordLoop]

/-- Comparing the new observation with itself is skipped (distance zero). -/
theorem recordLoop_self_skip (L road : Nat) (plate : String) (m2 t2 : Nat)
    (rest : List (Nat × Nat)) (ledger : List (String × Nat))
    (emitted : List Ticket) :
    recordLoop L road plate m2 t2 ((m2, t2) :: rest) ledger emitted
      = recordLoop L road plate m2 t2 rest ledger emitted := by
  simp [recordLoop]

/-- Evaluation of one loop iteration on the genuine pair (m1, t1) against
the new observation (m2, t2), for t1 < t2 and distinct miles. -/
theorem recordLoop_pair (L road : Nat) (plate : String) (m1 t1 m2 t2 : Nat)
    (rest : List (Nat × Nat)) (ledger : List (String × Nat))
    (emitted : List Ticket) (ht : t1 < t2) (hm : m1 ≠ m2) :
    recordLoop L road plate m2 t2 ((m1, t1) :: rest) ledger emitted
      = (if U16_MAX < computeSpeed (max m1 m2 - min m1 m2) (t2 - t1) then
          (ledger, emitted)
        else if L < computeSpeed (max m1 m2 - min m1 m2) (t2 - t1) then
          if (daysRange (t1 / DAY_IN_SECS) (t2 / DAY_IN_SECS)).any
              (fun day => decide ((plate, day) ∈ ledger)) then
            recordLoop L road plate m2 t2 rest ledger emitted
          else
            recordLoop L road plate m2 t2 rest
              (insertDays plate
                (daysRange (t1 / DAY_IN_SECS) (t2 / DAY_IN_SECS)) ledger)
              (emitted ++ [⟨plate, road, m1, t1, m2, t2,
                computeSpeed (max m1 m2 - min m1 m2) (t2 - t1)⟩])
        else recordLoop L road plate m2 t2 rest ledger emitted) := by
  have hdt : max t1 t2 - min t1 t2 = t2 - t1 := by
    rw [Nat.max_eq_right (le_of_lt ht), Nat.min_eq_left (le_of_lt ht)]
  have hdist : max m1 m2 - min m1 m2 ≠ 0 := by
    rcases Nat.le_total m1 m2 with h | h
    · rw [Nat.max_eq_right h, Nat.min_eq_left h]
      intro hc
      exact hm (by omega)
    · rw [Nat.max_eq_left h, Nat.min_eq_right h]
      intro hc
      exact hm (by omega)
  have hcond2 : ¬(t2 - t1 = 0 ∨ max m1 m2 - min m1 m2 = 0) := by
    push_neg
    exact ⟨by omega, hdist⟩
  have hpmin : pairMin (t2, m2) (t1, m1) = (t1, m1) := by
    rw [pairMin, if_neg (by simp; omega)]
  have hpmax : pairMax (t2, m2) (t1, m1) = (t2, m2) := by
    rw [pairMax, if_neg (by simp; omega)]
  simp only [recordLoop, hdt, hpmin, hpmax, if_neg hcond2]

end Speed

namespace Speed

/-- Both iteration orders of the two-entry records map give the same
outcome of RoadWorker::record for the second observation. -/
theorem recordLoop_two_result (L road : Nat) (plate : String)
    (m1 t1 m2 t2 : Nat) (ledger : List (String × Nat)) (ht : t1 < t2)
    (hm : m1 ≠ m2) (entries : List (Nat × Nat))
    (he : entries = [(m1, t1), (m2, t2)] ∨ entries = [(m2, t2), (m1, t1)]) :
    recordLoop L road plate m2 t2 entries ledger []
      = (if U16_MAX < computeSpeed (max m1 m2 - min m1 m2) (t2 - t1) then
          (ledger, [])
        else if L < computeSpeed (max m1 m2 - min m1 m2) (t2 - t1) then
          if (daysRange (t1 / DAY_IN_SECS) (t2 / DAY_IN_SECS)).any
              (fun day => decide ((plate, day) ∈ ledger)) then
            (ledger, [])
          else
            (insertDays plate
              (daysRange (t1 / DAY_IN_SECS) (t2 / DAY_IN_SECS)) ledger,
             [⟨plate, road, m1, t1, m2, t2,
               computeSpeed (max m1 m2 - min m1 m2) (t2 - t1)⟩])
        else (ledger, [])) := by
  rcases he with he | he <;> rw [he]
  · rw [recordLoop_pair L road plate m1 t1 m2 t2 [(m2, t2)] ledger [] ht hm]
    simp only [recordLoop_self_skip]
    simp only [recordLoop, List.nil_append]
  · rw [recordLoop_self_skip,
      recordLoop_pair L road plate m1 t1 m2 t2 [] ledger [] ht hm]
    simp only [recordLoop, List.nil_append]

/-- Claim C1 amended: for a plate with exactly two observations on the same
road (limit L) at (m1, t1) and (m2, t2) with t1 < t2, the road worker emits
a ticket if and only if the speed the program computes in binary64
floating point - |m1 - m2| as f64 divided by ((t2 - t1) / 60 / 60 computed
in f64), rounded half away from zero, i.e. computeSpeed - exceeds L, that
speed fits in a u16 (at most 65535; larger values abort the call), and no
day of [t1 / 86400, t2 / 86400] is already in the daily ledger for the
plate; when it emits, the single ticket lists the records ordered by
timestamp and every day of the range is recorded in the ledger.  The
theorem quantifies over both possible iteration orders of the two map
entries. -/
theorem C1_two_observation_ticket (plate : String) (road L m1 t1 m2 t2 : Nat)
    (ledger : List (String × Nat)) (ht : t1 < t2)
    (entries : List (Nat × Nat))
    (hperm : entries.Perm (insertAssoc [(m1, t1)] m2 t2)) :
    record L road plate [] m1 t1 ledger [] = ([(m1, t1)], ledger, [])
    ∧ ((recordLoop L road plate m2 t2 entries ledger []).2 ≠ []
        ↔ (L < computeSpeed (max m1 m2 - min m1 m2) (t2 - t1)
            ∧ computeSpeed (max m1 m2 - min m1 m2) (t2 - t1) ≤ U16_MAX
            ∧ ∀ d, t1 / DAY_IN_SECS ≤ d → d ≤ t2 / DAY_IN_SECS →
                (plate, d) ∉ ledger))
    ∧ ((recordLoop L road plate m2 t2 entries ledger []).2 ≠ [] →
        (recordLoop L road plate m2 t2 entries ledger []).2
            = [⟨plate, road, m1, t1, m2, t2,
                computeSpeed (max m1 m2 - min m1 m2) (t2 - t1)⟩]
          ∧ ∀ d, t1 / DAY_IN_SECS ≤ d → d ≤ t2 / DAY_IN_SECS →
              (plate, d) ∈ (recordLoop L road plate m2 t2 entries ledger []).1) := by
  refine ⟨record_first_observation L road plate m1 t1 ledger, ?_⟩
  have hdivle : t1 / DAY_IN_SECS ≤ t2 / DAY_IN_SECS :=
    Nat.div_le_div_right (le_of_lt ht)
  by_cases hm : m1 = m2
  · subst hm
    have hins : insertAssoc [(m1, t1)] m1 t2 = [(m1, t2)] := by
      simp [insertAssoc]
    rw [hins] at hperm
    rw [List.perm_singleton.mp hperm, recordLoop_self_skip]
    have hspeed : computeSpeed (max m1 m1 - min m1 m1) (t2 - t1) = 0 := by
      have hz : max m1 m1 - min m1 m1 = 0 := by simp
      rw [hz]
      exact computeSpeed_zero _
    refine ⟨?_, ?_⟩
    · simp only [recordLoop, hspeed]
      constructor
      · intro h
        exact absurd rfl h
      · rintro ⟨hL, -, -⟩
        omega
    · intro h
      simp only [recordLoop] at h
      exact absurd rfl h
  · have hins : insertAssoc [(m1, t1)] m2 t2 = [(m1, t1), (m2, t2)] := by
      have : (m1 == m2) = false := by
        simp only [beq_eq_false_iff_ne, ne_eq]
        exact hm
      simp [insertAssoc, this]
    rw [hins] at hperm
    have hred := recordLoop_two_result L road plate m1 t1 m2 t2 ledger ht hm
      entries (perm_pair_cases entries _ _ hperm)
    rw [hred]
    have hany : ((daysRange (t1 / DAY_IN_SECS) (t2 / DAY_IN_SECS)).any
          (fun day => decide ((plate, day) ∈ ledger)) = false)
        ↔ (∀ d, t1 / DAY_IN_SECS ≤ d → d ≤ t2 / DAY_IN_SECS →
            (plate, d) ∉ ledger) := by
      rw [← Bool.not_eq_true, List.any_eq_true]
      constructor
      · intro h d h1 h2 hmem
        exact h ⟨d, (mem_daysRange hdivle).mpr ⟨h1, h2⟩, by simpa using hmem⟩
      · rintro h ⟨d, hd, hmem⟩
        have hb := (mem_daysRange hdivle).mp hd
        exact h d hb.1 hb.2 (by simpa using hmem)
    by_cases h1 : U16_MAX < computeSpeed (max m1 m2 - min m1 m2) (t2 - t1)
    · rw [if_pos h1]
      refine ⟨?_, ?_⟩
      · constructor
        · intro h
          exact absurd rfl h
        · rintro ⟨-, hle, -⟩
          omega
      · intro h
        exact absurd rfl h
    · rw [if_neg h1]
      by_cases h2 : L < computeSpeed (max m1 m2 - min m1 m2) (t2 - t1)
      · rw [if_pos h2]
        by_cases h3 : (daysRange (t1 / DAY_IN_SECS) (t2 / DAY_IN_SECS)).any
            (fun day => decide ((plate, day) ∈ ledger)) = true
        · rw [if_pos h3]
          refine ⟨?_, ?_⟩
          · constructor
            · intro h
              exact absurd rfl h
            · rintro ⟨-, -, hfresh⟩
              rw [← hany] at hfresh
              rw [hfresh] at h3
              exact Bool.noConfusion h3
          · intro h
            exact absurd rfl h
        · rw [if_neg h3]
          have hfresh := hany.mp (Bool.not_eq_true _ ▸ h3)
          refine ⟨?_, ?_⟩
          · constructor
            · intro _
              exact ⟨h2, by omega, hfresh⟩
            · intro _
              simp
          · intro _
            refine ⟨rfl, ?_⟩
            intro d hd1 hd2
            exact (mem_insertDays plate plate d _ ledger).mpr
              (Or.inr ⟨rfl, (mem_daysRange hdivle).mpr ⟨hd1, hd2⟩⟩)
      · rw [if_neg h2]
        refine ⟨?_, ?_⟩
        · constructor
          · intro h
            exact absurd rfl h
          · rintro ⟨hL, -, -⟩
            exact absurd hL h2
        · intro h
          exact absurd rfl h

/-- Witness for C1 at the scenario of the spec: plate UN1X, road 123,
limit 60, observations (mile 8, t 0) and (mile 9, t 45), empty ledger:
exactly one ticket, speed 80, records ordered by timestamp. -/
theorem C1_witness :
    (recordLoop 60 123 "UN1X" 9 45 [(8, 0), (9, 45)] [] []).2
      = [⟨"UN1X", 123, 8, 0, 9, 45, 80⟩] := by
  have h := C1_two_observation_ticket "UN1X" 123 60 8 0 9 45 [] (by decide)
    [(8, 0), (9, 45)] (by decide)
  have hne : (recordLoop 60 123 "UN1X" 9 45 [(8, 0), (9, 45)] [] []).2 ≠ [] := by
    apply h.2.1.mpr
    refine ⟨by decide, by decide, ?_⟩
    intro d _ _ hmem
    simp at hmem
  have := (h.2.2 hne).1
  rw [this]
  have hval : computeSpeed (max 8 9 - min 8 9) (45 - 0) = 80 := by decide
  rw [hval]

end Speed

namespace Speed

/-- Claim C1 counterexample (the claim as frozen): two observations 60000
miles apart one second apart give a rounded speed of 216000000 mph, above
the limit 100 with an empty ledger, so the claim requires a ticket; the
code aborts on the failed u16 conversion and emits none. -/
theorem C1_counterexample :
    (recordLoop 100 1 "A" 60000 1 [(0, 0), (60000, 1)] [] []).2 = []
    ∧ 100 < roundHalfUp (3600 * (max 0 60000 - min 0 60000)) (1 - 0)
    ∧ (daysRange (0 / DAY_IN_SECS) (1 / DAY_IN_SECS)).any
        (fun day => decide (("A", day) ∈ ([] : List (String × Nat)))) = false := by
  refine ⟨by decide, by decide, by decide⟩

/-- Per-road worker state (struct RoadWorker): the speed limit and the
per-plate camera/timestamp records. -/
structure Worker where
  speedLimit : Nat
  records : List (String × List (Nat × Nat))
deriving DecidableEq, Repr

/-- Whole record system state: the road workers, the shared daily ticket
ledger (SharedTicketRecords, one DashSet shared by every worker through
Arc clones), and every ticket submitted so far. -/
structure SpeedSys where
  workers : List (Nat × Worker)
  ledger : List (String × Nat)
  emitted : List Ticket
deriving DecidableEq, Repr

/-- The two message kinds handled by the record system actor
(InternalMessage in record.rs). -/
inductive SpeedEvent where
  | registerCamera (road limit : Nat)
  | plateReport (road : Nat) (plate : String) (camera timestamp : Nat)
deriving DecidableEq, Repr

/-- Association-list update: replace the value under an existing key, else
append (HashMap::insert semantics). -/
def setAssoc {β : Type} (l : List (Nat × β)) (k : Nat) (v : β) : List (Nat × β) :=
  if l.any (fun e => e.1 == k) then
    l.map (fun e => if e.1 = k then (k, v) else e)
  else l ++ [(k, v)]

/-- Per-plate variant of setAssoc for the String-keyed records map. -/
def setPlateAssoc {β : Type} (l : List (String × β)) (k : String) (v : β) :
    List (String × β) :=
  if l.any (fun e => e.1 == k) then
    l.map (fun e => if e.1 = k then (k, v) else e)
  else l ++ [(k, v)]

/-- One step of the record system (System::register_camera and
System::submit_record driving RoadWorker::record).  register_camera keeps
an existing worker (entry().or_insert_with); submit_record for an
unregistered road cannot happen through the typed handlers and is a no-op
here. -/
def sysStep (st : SpeedSys) : SpeedEvent → SpeedSys
  | SpeedEvent.registerCamera road limit =>
    match st.workers.lookup road with
    | some _ => st
    | none => ⟨st.workers ++ [(road, ⟨limit, []⟩)], st.ledger, st.emitted⟩
  | SpeedEvent.plateReport road plate camera timestamp =>
    match st.workers.lookup road with
    | none => st
    | some w =>
      let plateRecords := ((w.records.lookup plate).getD [])
      let out := record w.speedLimit road plate plateRecords camera timestamp
        st.ledger st.emitted
      ⟨setAssoc st.workers road ⟨w.speedLimit, setPlateAssoc w.records plate out.1⟩,
       out.2.1, out.2.2⟩

/-- Run a sequence of events from the initial empty system. -/
def runEvents (events : List SpeedEvent) : SpeedSys :=
  events.foldl sysStep ⟨[], [], []⟩

/-- A ticket covers a (plate, day) pair when the day falls in the inclusive
range spanned by its two timestamps. -/
def coversDay (t : Ticket) (p : String) (d : Nat) : Prop :=
  t.plate = p ∧ t.timestamp1 / DAY_IN_SECS ≤ d ∧ d ≤ t.timestamp2 / DAY_IN_SECS

instance (t : Ticket) (p : String) (d : Nat) : Decidable (coversDay t p d) := by
  unfold coversDay
  infer_instance

/-- The daily-uniqueness invariant: every covered (plate, day) pair of an
emitted ticket is in the ledger, and no (plate, day) pair is covered by
more than one emitted ticket. -/
def TicketsOk (ledger : List (String × Nat)) (emitted : List Ticket) : Prop :=
  (∀ t ∈ emitted, ∀ d, t.timestamp1 / DAY_IN_SECS ≤ d →
      d ≤ t.timestamp2 / DAY_IN_SECS → (t.plate, d) ∈ ledger)
  ∧ ∀ p d, emitted.countP (fun t => decide (coversDay t p d)) ≤ 1

end Speed

namespace Speed

theorem pairMin_fst_le (p q : Nat × Nat) : (pairMin p q).1 ≤ (pairMax p q).1 := by
  unfold pairMin pairMax
  split <;> omega

theorem TicketsOk_emit (road : Nat) (plate : String) (sp : Nat) (a b : Nat × Nat)
    (hfst : a.1 ≤ b.1) (ledger : List (String × Nat)) (emitted : List Ticket)
    (hok : TicketsOk ledger emitted)
    (hfresh : ∀ d ∈ daysRange (a.1 / DAY_IN_SECS) (b.1 / DAY_IN_SECS),
      (plate, d) ∉ ledger) :
    TicketsOk
      (insertDays plate (daysRange (a.1 / DAY_IN_SECS) (b.1 / DAY_IN_SECS)) ledger)
      (emitted ++ [⟨plate, road, a.2, a.1, b.2, b.1, sp⟩]) := by
  have hdiv : a.1 / DAY_IN_SECS ≤ b.1 / DAY_IN_SECS := Nat.div_le_div_right hfst
  constructor
  · intro t ht d hd1 hd2
    rcases List.mem_append.mp ht with hold | hnew
    · exact ledger_subset_insertDays plate _ ledger _ (hok.1 t hold d hd1 hd2)
    · have : t = ⟨plate, road, a.2, a.1, b.2, b.1, sp⟩ := by simpa using hnew
      subst this
      simp only at hd1 hd2
      exact (mem_insertDays plate plate d _ ledger).mpr
        (Or.inr ⟨rfl, (mem_daysRange hdiv).mpr ⟨hd1, hd2⟩⟩)
  · intro p d
    rw [List.countP_append]
    by_cases hcov : coversDay ⟨plate, road, a.2, a.1, b.2, b.1, sp⟩ p d
    · have hzero : emitted.countP (fun t => decide (coversDay t p d)) = 0 := by
        rw [List.countP_eq_zero]
        intro t ht hcovt
        have hcovt2 : coversDay t p d := of_decide_eq_true hcovt
        have hmem : (t.plate, d) ∈ ledger :=
          hok.1 t ht d hcovt2.2.1 hcovt2.2.2
        rw [hcovt2.1] at hmem
        obtain ⟨hp, hd1, hd2⟩ := hcov
        simp only at hp hd1 hd2
        subst hp
        exact hfresh d ((mem_daysRange hdiv).mpr ⟨hd1, hd2⟩) hmem
      rw [hzero]
      simp [List.countP_cons, hcov]
    · have hone : List.countP (fun t => decide (coversDay t p d))
          [⟨plate, road, a.2, a.1, b.2, b.1, sp⟩] = 0 := by
        simp [List.countP_cons, hcov]
      rw [hone]
      simpa using hok.2 p d

theorem recordLoop_preserves (L road : Nat) (plate : String)
    (camera timestamp : Nat) (entries : List (Nat × Nat)) :
    ∀ (ledger : List (String × Nat)) (emitted : List Ticket),
    TicketsOk ledger emitted →
    TicketsOk (recordLoop L road plate camera timestamp entries ledger emitted).1
        (recordLoop L road plate camera timestamp entries ledger emitted).2
      ∧ ∀ x ∈ ledger,
          x ∈ (recordLoop L road plate camera timestamp entries ledger emitted).1 := by
  induction entries with
  | nil =>
    intro ledger emitted hok
    exact ⟨by simpa [recordLoop] using hok, fun x hx => by simpa [recordLoop] using hx⟩
  | cons e rest ih =>
    obtain ⟨ec, et⟩ := e
    intro ledger emitted hok
    simp only [recordLoop]
    by_cases hskip : max et timestamp - min et timestamp = 0
        ∨ max ec camera - min ec camera = 0
    · rw [if_pos hskip]
      exact ih ledger emitted hok
    · rw [if_neg hskip]
      by_cases hover : U16_MAX
          < computeSpeed (max ec camera - min ec camera)
              (max et timestamp - min et timestamp)
      · rw [if_pos hover]
        exact ⟨hok, fun x hx => hx⟩
      · rw [if_neg hover]
        by_cases hsp : L < computeSpeed (max ec camera - min ec camera)
            (max et timestamp - min et timestamp)
        · rw [if_pos hsp]
          by_cases hpresent : (daysRange
                ((pairMin (timestamp, camera) (et, ec)).1 / DAY_IN_SECS)
                ((pairMax (timestamp, camera) (et, ec)).1 / DAY_IN_SECS)).any
              (fun day => decide ((plate, day) ∈ ledger)) = true
          · rw [if_pos hpresent]
            exact ih ledger emitted hok
          · rw [if_neg hpresent]
            have hfresh : ∀ d ∈ daysRange
                ((pairMin (timestamp, camera) (et, ec)).1 / DAY_IN_SECS)
                ((pairMax (timestamp, camera) (et, ec)).1 / DAY_IN_SECS),
                (plate, d) ∉ ledger := by
              intro d hd hmem
              apply hpresent
              rw [List.any_eq_true]
              exact ⟨d, hd, by simpa using hmem⟩
            have hnewok := TicketsOk_emit road plate
              (computeSpeed (max ec camera - min ec camera)
                (max et timestamp - min et timestamp))
              (pairMin (timestamp, camera) (et, ec))
              (pairMax (timestamp, camera) (et, ec))
              (pairMin_fst_le _ _) ledger emitted hok hfresh
            have hrec := ih _ _ hnewok
            refine ⟨hrec.1, ?_⟩
            intro x hx
            exact hrec.2 x (ledger_subset_insertDays plate _ ledger x hx)
        · rw [if_neg hsp]
          exact ih ledger emitted hok

/-- TicketsOk is preserved by every event step. -/
theorem sysStep_preserves (st : SpeedSys) (ev : SpeedEvent)
    (hok : TicketsOk st.ledger st.emitted) :
    TicketsOk (sysStep st ev).ledger (sysStep st ev).emitted := by
  cases ev with
  | registerCamera road limit =>
    simp only [sysStep]
    cases st.workers.lookup road <;> exact hok
  | plateReport road plate camera timestamp =>
    simp only [sysStep]
    cases hw : st.workers.lookup road with
    | none => exact hok
    | some w =>
      simp only []
      exact (recordLoop_preserves w.speedLimit road plate camera timestamp
        (insertAssoc ((w.records.lookup plate).getD []) camera timestamp)
        st.ledger st.emitted hok).1

/-- Claim C2: across any sequence of observations processed by the record
system, over all roads and cameras, no (plate, day) pair is covered by more
than one emitted ticket, where a ticket covers every day between its two
timestamps divided by 86400. -/
theorem C2_daily_uniqueness (events : List SpeedEvent) (p : String) (d : Nat) :
    (runEvents events).emitted.countP (fun t => decide (coversDay t p d)) ≤ 1 := by
  suffices h : TicketsOk (runEvents events).ledger (runEvents events).emitted by
    exact h.2 p d
  rw [runEvents]
  induction events using List.reverseRecOn with
  | nil => exact ⟨by simp, by simp⟩
  | append_singleton events ev ih =>
    rw [List.foldl_append, List.foldl_cons, List.foldl_nil]
    exact sysStep_preserves _ ev ih

end Speed

namespace Vcs

/-- Rust char::is_alphanumeric: Unicode Alphabetic or a Nd/Nl/No number.
The model covers the Basic Latin and Latin-1 Supplement blocks (code points
up to U+00FF) faithfully; every theorem below stays within this range.  In
Latin-1 the alphanumerics are the ordinal indicators U+00AA and U+00BA, the
superscripts two, three and one, the micro sign, the vulgar fractions
U+00BC to U+00BE, and the letters U+00C0 to U+00FF except the
multiplication sign U+00D7 and the division sign U+00F7. -/
def rustIsAlphanumeric (c : Char) : Bool :=
  c.isAlpha || c.isDigit ||
    (let n := c.toNat
     n == 0xAA || n == 0xB2 || n == 0xB3 || n == 0xB5 || n == 0xB9 || n == 0xBA
       || (0xBC ≤ n && n ≤ 0xBE) || (0xC0 ≤ n && n ≤ 0xD6)
       || (0xD8 ≤ n && n ≤ 0xF6) || (0xF8 ≤ n && n ≤ 0xFF))

/-- The whole-path character test of validate_dirpath (protocol/message.rs
line 231): alphanumeric, dot, underscore or slash. -/
def dirAllowedChar (c : Char) : Bool :=
  rustIsAlphanumeric c || c = '.' || c = '_' || c = '/'

/-- The per-segment character test of validate_strippted_path (line 255):
alphanumeric, dot, underscore or hyphen. -/
def fileAllowedChar (c : Char) : Bool :=
  rustIsAlphanumeric c || c = '.' || c = '_' || c = '-'

/-- enum RequestErr of protocol/message.rs. -/
inductive RequestErr where
  | illegalMethod (m : List Char)
  | badUsage (m : List Char)
  | illegalFileName
  | illegalDirName
deriving DecidableEq, Repr

/-- validate_strippted_path (protocol/message.rs lines 250 to 257): every
slash-separated part is nonempty and made of allowed characters. -/
def validate_strippted_path (path : List Char) : Bool :=
  (path.splitOn '/').all (fun part => !part.isEmpty && part.all fileAllowedChar)

/-- validate_dirpath (protocol/message.rs lines 223 to 248). -/
def validate_dirpath (dir : List Char) : Except RequestErr (List Char) :=
  if dir.head? ≠ some '/' then Except.error RequestErr.illegalDirName
  else if !(dir.all dirAllowedChar) then Except.error RequestErr.illegalDirName
  else
    let dir2 := if dir.getLast? = some '/' then dir else dir ++ ['/']
    if 1 < dir2.length ∧ !(validate_strippted_path ((dir2.drop 1).dropLast)) then
      Except.error RequestErr.illegalDirName
    else Except.ok dir2

/-- The character class the claim names for LIST paths: A-Z, a-z, 0-9,
dot, underscore, slash (Char.isAlpha and Char.isDigit are exactly the
ASCII letter and digit ranges). -/
def claimDirChar (c : Char) : Bool :=
  c.isAlpha || c.isDigit || c = '.' || c = '_' || c = '/'

/-- The claim-side segment condition: the root path is fine; otherwise
every segment of the path (leading slash removed, one optional trailing
slash removed) is non-empty. -/
def dirSegmentsOk (p : List Char) : Prop :=
  p = ['/']
    ∨ ∀ part ∈ ((if p.getLast? = some '/' then (p.drop 1).dropLast
        else p.drop 1).splitOn '/'), part ≠ []

instance (p : List Char) : Decidable (dirSegmentsOk p) := by
  unfold dirSegmentsOk
  infer_instance

/-- Every error returned by validate_dirpath is the illegal-dir-name one. -/
theorem validate_dirpath_error_value (p : List Char) (e : RequestErr)
    (h : validate_dirpath p = Except.error e) : e = RequestErr.illegalDirName := by
  simp only [validate_dirpath] at h
  split_ifs at h <;> simp_all

theorem mem_of_mem_splitOnP {l part : List Char} {pfn : Char → Bool}
    (hp : part ∈ l.splitOnP pfn) : ∀ x ∈ part, x ∈ l := by
  induction l generalizing part with
  | nil =>
    intro x hx
    rw [List.splitOnP_nil] at hp
    rcases List.mem_singleton.mp hp with rfl
    exact absurd hx (List.not_mem_nil x)
  | cons c r ih =>
    intro x hx
    rw [List.splitOnP_cons] at hp
    by_cases hc : pfn c
    · rw [if_pos hc] at hp
      rcases List.mem_cons.mp hp with rfl | hp2
      · exact absurd hx (List.not_mem_nil x)
      · exact List.mem_cons_of_mem c (ih hp2 x hx)
    · rw [if_neg hc] at hp
      cases hsplit : r.splitOnP pfn with
      | nil => exact absurd hsplit (List.splitOnP_ne_nil pfn r)
      | cons h0 t0 =>
        rw [hsplit] at hp
        simp only [List.modifyHead] at hp
        rcases List.mem_cons.mp hp with rfl | hp2
        · rcases List.mem_cons.mp hx with rfl | hx2
          · exact List.mem_cons_self x r
          · have hh : h0 ∈ r.splitOnP pfn := by rw [hsplit]; exact List.mem_cons_self h0 t0
            exact List.mem_cons_of_mem c (ih hh x hx2)
        · have hh : part ∈ r.splitOnP pfn := by
            rw [hsplit]
            exact List.mem_cons_of_mem h0 hp2
          exact List.mem_cons_of_mem c (ih hh x hx)

theorem mem_of_mem_splitOn {l part : List Char} (hp : part ∈ l.splitOn '/') :
    ∀ x ∈ part, x ∈ l :=
  mem_of_mem_splitOnP hp

theorem splitOn_part_no_slash {l part : List Char} (hp : part ∈ l.splitOn '/') :
    ∀ x ∈ part, ¬x = '/' := by
  induction l generalizing part with
  | nil =>
    intro x hx
    rw [List.splitOn_nil] at hp
    rcases List.mem_singleton.mp hp with rfl
    exact absurd hx (List.not_mem_nil x)
  | cons c r ih =>
    intro x hx
    rw [List.splitOn, List.splitOnP_cons] at hp
    by_cases hc : c = '/'
    · rw [if_pos (by simp [hc])] at hp
      rcases List.mem_cons.mp hp with rfl | hp2
      · exact absurd hx (List.not_mem_nil x)
      · exact ih hp2 x hx
    · rw [if_neg (by simp [hc])] at hp
      cases hsplit : r.splitOn '/' with
      | nil => exact absurd hsplit (List.splitOnP_ne_nil _ r)
      | cons h0 t0 =>
        rw [List.splitOn] at hsplit
        rw [hsplit] at hp
        simp only [List.modifyHead] at hp
        rcases List.mem_cons.mp hp with rfl | hp2
        · rcases List.mem_cons.mp hx with rfl | hx2
          · exact hc
          · have hh : h0 ∈ r.splitOn '/' := by
              rw [List.splitOn, hsplit]
              exact List.mem_cons_self h0 t0
            exact ih hh x hx2
        · have hh : part ∈ r.splitOn '/' := by
            rw [List.splitOn, hsplit]
            exact List.mem_cons_of_mem h0 hp2
          exact ih hh x hx

/-- On ASCII characters the Rust alphanumeric test is exactly the ASCII
letter-or-digit test. -/
theorem rustIsAlphanumeric_ascii {c : Char} (h : c.toNat < 128) :
    rustIsAlphanumeric c = (c.isAlpha || c.isDigit) := by
  have h1 : (c.toNat == 0xAA) = false := by simp; omega
  have h2 : (c.toNat == 0xB2) = false := by simp; omega
  have h3 : (c.toNat == 0xB3) = false := by simp; omega
  have h4 : (c.toNat == 0xB5) = false := by simp; omega
  have h5 : (c.toNat == 0xB9) = false := by simp; omega
  have h6 : (c.toNat == 0xBA) = false := by simp; omega
  have h7 : (0xBC ≤ c.toNat && c.toNat ≤ 0xBE) = false := by
    simp only [Bool.and_eq_false_iff, decide_eq_false_iff_not]
    omega
  have h8 : (0xC0 ≤ c.toNat && c.toNat ≤ 0xD6) = false := by
    simp only [Bool.and_eq_false_iff, decide_eq_false_iff_not]
    omega
  have h9 : (0xD8 ≤ c.toNat && c.toNat ≤ 0xF6) = false := by
    simp only [Bool.and_eq_false_iff, decide_eq_false_iff_not]
    omega
  have h10 : (0xF8 ≤ c.toNat && c.toNat ≤ 0xFF) = false := by
    simp only [Bool.and_eq_false_iff, decide_eq_false_iff_not]
    omega
  simp [rustIsAlphanumeric, h1, h2, h3, h4, h5, h6, h7, h8, h9, h10]

theorem dirAllowedChar_ascii {c : Char} (h : c.toNat < 128) :
    dirAllowedChar c = claimDirChar c := by
  simp [dirAllowedChar, claimDirChar, rustIsAlphanumeric_ascii h, Bool.or_assoc]

end Vcs

namespace Vcs

theorem dirAllowed_not_slash_fileAllowed {c : Char} (h1 : dirAllowedChar c = true)
    (h2 : ¬c = '/') : fileAllowedChar c = true := by
  simp only [dirAllowedChar, Bool.or_eq_true, decide_eq_true_eq] at h1
  rcases h1 with ((ha | hd) | hu) | hs
  · simp [fileAllowedChar, ha]
  · simp [fileAllowedChar, hd]
  · simp [fileAllowedChar, hu]
  · exact absurd hs h2

/-- For a sublist section of an accepted character set, segment validity
reduces to nonemptiness of the segments. -/
theorem strip_iff_segments (p I : List Char) (hall : p.all dirAllowedChar = true)
    (hsub : ∀ x ∈ I, x ∈ p) :
    validate_strippted_path I = true ↔ ∀ part ∈ I.splitOn '/', part ≠ [] := by
  rw [validate_strippted_path, List.all_eq_true]
  constructor
  · intro h part hp
    have := h part hp
    simp only [Bool.and_eq_true, Bool.not_eq_true'] at this
    intro hcon
    rw [hcon] at this
    simp at this
  · intro h part hp
    simp only [Bool.and_eq_true, Bool.not_eq_true']
    refine ⟨?_, ?_⟩
    · have := h part hp
      cases part with
      | nil => exact absurd rfl this
      | cons a r => rfl
    · rw [List.all_eq_true]
      intro x hx
      have hxin : x ∈ p := hsub x (mem_of_mem_splitOn hp x hx)
      have hxall : dirAllowedChar x = true := by
        rw [List.all_eq_true] at hall
        exact hall x hxin
      exact dirAllowed_not_slash_fileAllowed hxall (splitOn_part_no_slash hp x hx)

/-- Claim C9 amended, for ASCII paths: validate_dirpath accepts exactly the
paths that begin with a slash, whose characters all lie in the class
A-Z a-z 0-9 dot underscore slash, and whose segments are all nonempty, the
trailing slash being optional; every rejection carries the illegal-dir-name
error.  (Non-ASCII Unicode alphanumerics are additionally accepted, since
the validator uses char::is_alphanumeric; see the counterexample.) -/
theorem C9_dirpath_ascii (p : List Char) (hascii : ∀ c ∈ p, c.toNat < 128) :
    ((∃ q, validate_dirpath p = Except.ok q)
      ↔ (p.head? = some '/' ∧ (∀ c ∈ p, claimDirChar c = true) ∧ dirSegmentsOk p))
    ∧ ∀ e, validate_dirpath p = Except.error e → e = RequestErr.illegalDirName := by
  refine ⟨?_, validate_dirpath_error_value p⟩
  by_cases hhead : p.head? = some '/'
  case neg =>
    constructor
    · rintro ⟨q, hq⟩
      rw [validate_dirpath, if_pos hhead] at hq
      exact Except.noConfusion hq
    · rintro ⟨h1, -, -⟩
      exact absurd h1 hhead
  case pos =>
    have hc1 : ¬(p.head? ≠ some '/') := fun hcon => hcon hhead
    by_cases hall : p.all dirAllowedChar = true
    case neg =>
      have hallf : p.all dirAllowedChar = false := by
        cases h : p.all dirAllowedChar with
        | false => rfl
        | true => exact absurd h hall
      have hnot2 : (!p.all dirAllowedChar) = true := by rw [hallf]; rfl
      constructor
      · rintro ⟨q, hq⟩
        rw [validate_dirpath, if_neg hc1, if_pos hnot2] at hq
        exact Except.noConfusion hq
      · rintro ⟨-, hchars, -⟩
        exact absurd (show p.all dirAllowedChar = true by
          rw [List.all_eq_true]
          intro c hc
          rw [dirAllowedChar_ascii (hascii c hc)]
          exact hchars c hc) hall
    case pos =>
      have hcond2 : ¬((!p.all dirAllowedChar) = true) := by rw [hall]; decide
      have hclaim : ∀ c ∈ p, claimDirChar c = true := by
        intro c hc
        rw [← dirAllowedChar_ascii (hascii c hc)]
        rw [List.all_eq_true] at hall
        exact hall c hc
      have hne : p ≠ [] := by
        intro h
        rw [h] at hhead
        exact Option.noConfusion hhead
      by_cases hroot : p = ['/']
      case pos =>
        subst hroot
        constructor
        · intro _
          exact ⟨rfl, by decide, Or.inl rfl⟩
        · intro _
          exact ⟨['/'], by decide⟩
      case neg =>
        by_cases hlast : p.getLast? = some '/'
        case pos =>
          have hlenp : 1 < p.length := by
            rcases Nat.lt_or_ge 1 p.length with h | h
            · exact h
            · exfalso
              have hpos := List.length_pos.mpr hne
              have h1 : p.length = 1 := by omega
              obtain ⟨a, rfl⟩ := List.length_eq_one.mp h1
              simp only [List.head?_cons, Option.some.injEq] at hhead
              exact hroot (by rw [hhead])
          have hsub : ∀ x ∈ (p.drop 1).dropLast, x ∈ p := fun x hx =>
            List.drop_subset 1 p (List.dropLast_subset _ hx)
          have hstrip := strip_iff_segments p ((p.drop 1).dropLast) hall hsub
          constructor
          · rintro ⟨q, hq⟩
            refine ⟨hhead, hclaim, Or.inr ?_⟩
            rw [if_pos hlast]
            rw [validate_dirpath, if_neg hc1, if_neg hcond2] at hq
            simp only [if_pos hlast] at hq
            by_cases hv : validate_strippted_path ((p.drop 1).dropLast) = true
            · exact hstrip.mp hv
            · have hv2 : validate_strippted_path ((p.drop 1).dropLast) = false := by
                cases hb : validate_strippted_path ((p.drop 1).dropLast) with
                | false => rfl
                | true => exact absurd hb hv
              have hcondp : 1 < p.length
                  ∧ (!validate_strippted_path ((p.drop 1).dropLast)) = true :=
                ⟨hlenp, by rw [hv2]; rfl⟩
              rw [if_pos hcondp] at hq
              exact Except.noConfusion hq
          · rintro ⟨-, -, hseg⟩
            rcases hseg with h | hseg
            · exact absurd h hroot
            rw [if_pos hlast] at hseg
            have hv := hstrip.mpr hseg
            have hcondn : ¬(1 < p.length
                ∧ (!validate_strippted_path ((p.drop 1).dropLast)) = true) := by
              rw [hv]
              simp
            refine ⟨p, ?_⟩
            rw [validate_dirpath, if_neg hc1, if_neg hcond2]
            simp only [if_pos hlast]
            rw [if_neg hcondn]
        case neg =>
          have hlenp : 1 ≤ p.length := List.length_pos.mpr hne
          have hdrop : ((p ++ ['/']).drop 1).dropLast = p.drop 1 := by
            rw [List.drop_append_of_le_length hlenp, List.dropLast_concat]
          have hsub : ∀ x ∈ p.drop 1, x ∈ p := fun x hx => List.drop_subset 1 p hx
          have hstrip := strip_iff_segments p (p.drop 1) hall hsub
          have hlen3 : 1 < (p ++ ['/']).length := by
            rw [List.length_append]
            simp only [List.length_cons, List.length_nil]
            omega
          constructor
          · rintro ⟨q, hq⟩
            refine ⟨hhead, hclaim, Or.inr ?_⟩
            rw [if_neg hlast]
            rw [validate_dirpath, if_neg hc1, if_neg hcond2] at hq
            simp only [if_neg hlast, hdrop] at hq
            by_cases hv : validate_strippted_path (p.drop 1) = true
            · exact hstrip.mp hv
            · have hv2 : validate_strippted_path (p.drop 1) = false := by
                cases hb : validate_strippted_path (p.drop 1) with
                | false => rfl
                | true => exact absurd hb hv
              have hcondp : 1 < (p ++ ['/']).length
                  ∧ (!validate_strippted_path (p.drop 1)) = true :=
                ⟨hlen3, by rw [hv2]; rfl⟩
              rw [if_pos hcondp] at hq
              exact Except.noConfusion hq
          · rintro ⟨-, -, hseg⟩
            rcases hseg with h | hseg
            · exact absurd h hroot
            rw [if_neg hlast] at hseg
            have hv := hstrip.mpr hseg
            have hcondn : ¬(1 < (p ++ ['/']).length
                ∧ (!validate_strippted_path (p.drop 1)) = true) := by
              rw [hv]
              simp
            refine ⟨p ++ ['/'], ?_⟩
            rw [validate_dirpath, if_neg hc1, if_neg hcond2]
            simp only [if_neg hlast, hdrop]
            rw [if_neg hcondn]

/-- Claim C9 counterexample: the non-ASCII letter e-acute lies outside the
claimed class A-Z a-z 0-9 dot underscore slash, yet LIST accepts the path
containing it, because the validator uses the Unicode char::is_alphanumeric. -/
theorem C9_counterexample :
    validate_dirpath "/é".toList = Except.ok "/é/".toList
    ∧ claimDirChar 'é' = false
    ∧ 'é' ∈ "/é".toList := by
  refine ⟨by decide, by decide, by decide⟩

/-- Witness for C9 at concrete ASCII inputs: /src/main.rs style directory
path accepted, and a path with an empty segment rejected. -/
theorem C9_witness :
    (∃ q, validate_dirpath "/src/lib_0.d/".toList = Except.ok q)
    ∧ ¬∃ q, validate_dirpath "/a//b".toList = Except.ok q := by
  constructor
  · exact (C9_dirpath_ascii "/src/lib_0.d/".toList (by decide)).1.mpr
      ⟨by decide, by decide, Or.inr (by decide)⟩
  · intro h
    have := (C9_dirpath_ascii "/a//b".toList (by decide)).1.mp h
    have hseg := this.2.2
    rcases hseg with h1 | h1
    · exact absurd h1 (by decide)
    · have := h1 "".toList (by decide)
      exact this rfl

end Vcs

namespace Vcs

/-- One more than the largest u64; u64 wrapping is reduction modulo this. -/
def U64_MOD : Nat := 18446744073709551616

/-- A stored file (struct TempFile in storage.rs): the ordered revision
contents and the map from content hash to revision number used for
deduplication.  SHA-1 is modelled by the content itself, an injective
stand-in; no claim depends on hash values. -/
structure VFile where
  revisions : List (List Nat)
  hashes : List (List Nat × Nat)
deriving DecidableEq, Repr

/-- TempFile::insert (storage.rs lines 15 to 27): a known hash returns the
existing revision number, otherwise the content is appended and numbered
from one. -/
def VFile.insert (f : VFile) (content hash : List Nat) : VFile × Nat :=
  match f.hashes.lookup hash with
  | some revision => (f, revision)
  | none =>
    let revisions := f.revisions ++ [content]
    (⟨revisions, f.hashes ++ [(hash, revisions.length)]⟩, revisions.length)

/-- TempFile::get (storage.rs lines 29 to 38): index the revisions vector
at revision - 1, a u64 subtraction that wraps around for revision zero
(release semantics), so revision zero indexes at 2^64 - 1 and misses. -/
def VFile.get (f : VFile) (revision : Nat) : Option (List Nat) :=
  f.revisions.get? ((revision + (U64_MOD - 1)) % U64_MOD)

/-- TempFile::get_last_revision (storage.rs lines 40 to 42). -/
def VFile.get_last_revision (f : VFile) : Nat := f.revisions.length

/-- struct TempFileSystem, keyed by full path.  The directory index is not
modelled; no claim concerns LIST output. -/
structure FileSystem where
  files : List (String × VFile)
deriving DecidableEq, Repr

/-- enum GetFileErr of storage.rs. -/
inductive GetFileErr where
  | fileNotFound
  | revisionNotFound
deriving DecidableEq, Repr

/-- The thiserror display strings of GetFileErr. -/
def GetFileErr.message : GetFileErr → String
  | GetFileErr.fileNotFound => "no such file"
  | GetFileErr.revisionNotFound => "no such revision"

/-- TempFileSystem::get (storage.rs lines 109 to 125): unknown name is
FileNotFound; an explicit revision that misses the vector is
RevisionNotFound; an absent revision reads the last one (that unwrap is
modelled with an empty default; it is exact whenever the file has at least
one revision, which insert guarantees). -/
def FileSystem.get (fs : FileSystem) (name : String) (revision : Option Nat) :
    Except GetFileErr (List Nat) :=
  match fs.files.lookup name with
  | none => Except.error GetFileErr.fileNotFound
  | some file =>
    match revision with
    | some r =>
      match file.get r with
      | some content => Except.ok content
      | none => Except.error GetFileErr.revisionNotFound
    | none => Except.ok ((file.get file.get_last_revision).getD [])

/-- Association-list update for String keys (HashMap::insert semantics). -/
def setStrAssoc {β : Type} (l : List (String × β)) (k : String) (v : β) :
    List (String × β) :=
  if l.any (fun e => e.1 == k) then
    l.map (fun e => if e.1 = k then (k, v) else e)
  else l ++ [(k, v)]

/-- TempFileSystem::insert (storage.rs lines 76 to 102); directory index
maintenance omitted. -/
def FileSystem.insert (fs : FileSystem) (filepath : String)
    (content hash : List Nat) : FileSystem × Nat :=
  let file := (fs.files.lookup filepath).getD ⟨[], []⟩
  let out := file.insert content hash
  (⟨setStrAssoc fs.files filepath out.1⟩, out.2)

/-- The requests relevant to the claims (parsed Request of
protocol/message.rs; LIST is omitted along with the directory index). -/
inductive VRequest where
  | get (filename : String) (revision : Option Nat)
  | put (filename : String) (content : List Nat)
  | help
deriving DecidableEq, Repr

/-- The responses produced by handle_connection for these requests. -/
inductive VResponse where
  | ok (body : List Nat)
  | okRevision (revision : Nat)
  | help
  | err (msg : String)
deriving DecidableEq, Repr

/-- The request dispatch of handle_connection (main.rs lines 31 to 56): a
Get error becomes an ERR response and the loop continues; no request kind
terminates the session here. -/
def serveRequest (fs : FileSystem) : VRequest → FileSystem × VResponse
  | VRequest.get filename revision =>
    match fs.get filename revision with
    | Except.ok content => (fs, VResponse.ok content)
    | Except.error e => (fs, VResponse.err e.message)
  | VRequest.put filename content =>
    let out := fs.insert filename content content
    (out.1, VResponse.okRevision out.2)
  | VRequest.help => (fs, VResponse.help)

/-- The request loop of handle_connection: serve each request in turn,
threading the file system. -/
def runSession (fs : FileSystem) : List VRequest → List VResponse
  | [] => []
  | req :: rest =>
    let out := serveRequest fs req
    out.2 :: runSession out.1 rest

/-- Claim C8: a GET for an existing file with explicit revision zero or a
revision above the revision count answers ERR no such revision and the
session continues with the following requests; an absent revision argument
returns the highest revision. -/
theorem C8_get_revision (fs : FileSystem) (name : String) (file : VFile)
    (rest : List VRequest) (r : Nat)
    (hfile : fs.files.lookup name = some file)
    (hne : file.revisions ≠ [])
    (hlen : file.revisions.length < U64_MOD)
    (hr : r < U64_MOD)
    (hbad : r = 0 ∨ file.revisions.length < r) :
    runSession fs (VRequest.get name (some r) :: rest)
        = VResponse.err "no such revision" :: runSession fs rest
    ∧ runSession fs (VRequest.get name none :: rest)
        = VResponse.ok (file.revisions.getLast hne) :: runSession fs rest := by
  have hlenpos : 0 < file.revisions.length := List.length_pos.mpr hne
  constructor
  · have hidx : (r + (U64_MOD - 1)) % U64_MOD
        = if r = 0 then U64_MOD - 1 else r - 1 := by
      simp only [U64_MOD] at hr ⊢
      split_ifs with h0
      · subst h0
        omega
      · omega
    have hmiss : file.get r = none := by
      rw [VFile.get, List.get?_eq_none, hidx]
      simp only [U64_MOD] at hlen ⊢
      split_ifs with h0
      · omega
      · rcases hbad with h | h
        · exact absurd h h0
        · omega
    rw [runSession]
    simp only [serveRequest, FileSystem.get, hfile, hmiss, GetFileErr.message]
  · have hidx2 : (file.revisions.length + (U64_MOD - 1)) % U64_MOD
        = file.revisions.length - 1 := by
      simp only [U64_MOD] at hlen ⊢
      omega
    have hget : file.get file.get_last_revision
        = some (file.revisions.getLast hne) := by
      rw [VFile.get, VFile.get_last_revision, hidx2]
      rw [List.getLast_eq_getElem]
      exact List.get?_eq_get _
    rw [runSession]
    simp only [serveRequest, FileSystem.get, hfile, hget, Option.getD_some]

/-- Witness for C8 at a concrete store: one file with a single revision;
revision zero errors and the session serves the following HELP request;
the revisionless GET returns the only revision. -/
theorem C8_witness :
    runSession ⟨[("f", ⟨[[72]], [([72], 1)]⟩)]⟩
        [VRequest.get "f" (some 0), VRequest.help]
      = [VResponse.err "no such revision", VResponse.help]
    ∧ runSession ⟨[("f", ⟨[[72]], [([72], 1)]⟩)]⟩
        [VRequest.get "f" none, VRequest.help]
      = [VResponse.ok [72], VResponse.help] := by
  have h := C8_get_revision ⟨[("f", ⟨[[72]], [([72], 1)]⟩)]⟩ "f"
    ⟨[[72]], [([72], 1)]⟩ [VRequest.help] 0 (by decide) (by decide)
    (by decide) (by decide) (Or.inl rfl)
  exact ⟨by rw [h.1]; rfl, by rw [h.2]; rfl⟩

end Vcs

namespace Vcs

/-- BLOCK_SIZE from protocol/connection.rs. -/
def BLOCK_SIZE : Nat := 4096

/-- The PUT body text check (connection.rs lines 113 to 119): ASCII graphic
bytes plus CR, LF, space and tab are allowed. -/
def isAllowedByte (b : Nat) : Bool :=
  (33 ≤ b && b ≤ 126) || b == 13 || b == 10 || b == 32 || b == 9

/-- Outcome of the PUT body read loop. -/
inductive PutOutcome where
  | ok (content rest : List Nat)
  | textErr (rest : List Nat)
  | eof
deriving DecidableEq, Repr

/-- The PUT body read loop of Connection::process_raw_request
(connection.rs lines 94 to 131).  Socket reads are modelled as returning
min(block size, available bytes); the block size is min(BLOCK_SIZE,
remaining byte count), matching the initial allocation and the shrinking
resize.  A block containing a byte outside the text set returns the error
immediately, leaving everything after that block unconsumed; a read of
zero bytes before the declared count is reached is the fatal EOF. -/
def readBodyLoop (byteCount : Nat) : Nat → List Nat → List Nat → PutOutcome
  | wcount, stream, acc =>
    if byteCount ≤ wcount then PutOutcome.ok acc stream
    else
      let remain := byteCount - wcount
      let blockLen := min BLOCK_SIZE remain
      let rcount := min blockLen stream.length
      if rcount = 0 then PutOutcome.eof
      else
        let block := stream.take rcount
        if block.any (fun b => !isAllowedByte b) then
          PutOutcome.textErr (stream.drop rcount)
        else
          readBodyLoop byteCount (wcount + rcount) (stream.drop rcount) (acc ++ block)
termination_by wcount _ _ => byteCount - wcount
decreasing_by
  omega

/-- A connection-level step after a raw PUT: either a response plus the
remaining input bytes of the connection, or fatal termination. -/
inductive PutStep where
  | next (resp : VResponse) (rest : List Nat)
  | fatal
deriving DecidableEq, Repr

/-- Connection::process_raw_request on a PUT, combined with the response
handling of read_request: a text error is sent as ERR and the loop
continues reading requests from the unconsumed bytes; a complete body is
inserted into the file system; a short body raises ConnectionErr::Eof and
kills the session. -/
def processPut (fs : FileSystem) (filename : String) (byteCount : Nat)
    (stream : List Nat) : FileSystem × PutStep :=
  match readBodyLoop byteCount 0 stream [] with
  | PutOutcome.ok content rest =>
    let out := fs.insert filename content content
    (out.1, PutStep.next (VResponse.okRevision out.2) rest)
  | PutOutcome.textErr rest =>
    (fs, PutStep.next (VResponse.err "text files only") rest)
  | PutOutcome.eof => (fs, PutStep.fatal)

theorem readBodyLoop_textErr (byteCount : Nat) :
    ∀ (k wcount : Nat) (stream acc : List Nat) (i : Nat),
    byteCount - wcount = k →
    i < byteCount - wcount → i < stream.length →
    isAllowedByte (stream.getD i 0) = false →
    ∃ B, 0 < B ∧ B ≤ byteCount - wcount ∧ B ≤ stream.length
      ∧ (∃ j, j < B ∧ isAllowedByte (stream.getD j 0) = false)
      ∧ readBodyLoop byteCount wcount stream acc
          = PutOutcome.textErr (stream.drop B) := by
  intro k
  induction k using Nat.strong_induction_on with
  | _ k ih =>
    intro wcount stream acc i hk hi his hbad
    have hnotdone : ¬byteCount ≤ wcount := by omega
    have hrpos : 0 < min (min BLOCK_SIZE (byteCount - wcount)) stream.length := by
      simp only [BLOCK_SIZE]
      omega
    have hrne : ¬(min (min BLOCK_SIZE (byteCount - wcount)) stream.length = 0) := by
      omega
    unfold readBodyLoop
    simp only [if_neg hnotdone, if_neg hrne]
    set rcount := min (min BLOCK_SIZE (byteCount - wcount)) stream.length with hrc
    by_cases hany : (stream.take rcount).any (fun b => !isAllowedByte b) = true
    · rw [if_pos hany]
      refine ⟨rcount, hrpos, by omega, by omega, ?_, rfl⟩
      rw [List.any_eq_true] at hany
      obtain ⟨b, hbmem, hb⟩ := hany
      obtain ⟨j, hj, hbj⟩ := List.mem_iff_getElem.mp hbmem
      rw [List.length_take] at hj
      have hjr : j < rcount := by omega
      have hjs : j < stream.length := by omega
      refine ⟨j, hjr, ?_⟩
      have hgd : stream.getD j 0 = b := by
        rw [List.getD_eq_getElem _ _ hjs, ← hbj]
        exact (List.getElem_take _).symm
      rw [hgd]
      simpa using hb
    · rw [if_neg hany]
      have hallowed : ∀ j, j < rcount → isAllowedByte (stream.getD j 0) = true := by
        intro j hj
        by_contra hcon
        apply hany
        rw [List.any_eq_true]
        have hjs : j < stream.length := by omega
        have hjt : j < (stream.take rcount).length := by
          rw [List.length_take]
          omega
        refine ⟨(stream.take rcount)[j], List.getElem_mem hjt, ?_⟩
        rw [List.getElem_take]
        rw [List.getD_eq_getElem _ _ hjs] at hcon
        simp only [Bool.not_eq_true] at hcon
        rw [hcon]
        rfl
      have hige : rcount ≤ i := by
        by_contra hcon
        push_neg at hcon
        rw [hallowed i hcon] at hbad
        exact Bool.noConfusion hbad
      have hdropgetD : ∀ m, (stream.drop rcount).getD m 0 = stream.getD (rcount + m) 0 := by
        intro m
        simp [List.getD, List.getElem?_drop]
      have hrec := ih (byteCount - (wcount + rcount)) (by omega)
        (wcount + rcount) (stream.drop rcount) (acc ++ stream.take rcount)
        (i - rcount) rfl (by omega)
        (by rw [List.length_drop]; omega)
        (by rw [hdropgetD, show rcount + (i - rcount) = i by omega]; exact hbad)
      obtain ⟨B2, hB1, hB2, hB3, ⟨j2, hj2, hbad2⟩, heq⟩ := hrec
      rw [List.length_drop] at hB3
      refine ⟨rcount + B2, by omega, by omega, by omega, ?_, ?_⟩
      · refine ⟨rcount + j2, by omega, ?_⟩
        rw [← hdropgetD]
        exact hbad2
      · rw [heq, List.drop_drop]

/-- Claim C10: a PUT whose declared body contains a byte outside the text
set answers ERR text files only, creates no revision, and stops consuming
at the end of the block holding the offending byte: the remaining bytes,
including the rest of the declared body, stay in the connection input and
are read as subsequent requests. -/
theorem C10_put_text_error (fs : FileSystem) (filename : String)
    (byteCount : Nat) (stream : List Nat) (i : Nat)
    (hi : i < byteCount) (his : i < stream.length)
    (hbad : isAllowedByte (stream.getD i 0) = false) :
    ∃ B, 0 < B ∧ B ≤ byteCount ∧ B ≤ stream.length
      ∧ (∃ j, j < B ∧ isAllowedByte (stream.getD j 0) = false)
      ∧ processPut fs filename byteCount stream
          = (fs, PutStep.next (VResponse.err "text files only") (stream.drop B)) := by
  obtain ⟨B, h1, h2, h3, h4, h5⟩ := readBodyLoop_textErr byteCount
    (byteCount - 0) 0 stream [] i rfl (by omega) his hbad
  refine ⟨B, h1, by omega, h3, h4, ?_⟩
  rw [processPut, h5]

/-- Witness for C10 at a concrete input: a declared three-byte body whose
second byte is NUL; the error is reported, the store is untouched and the
remaining bytes stay in the stream. -/
theorem C10_witness :
    ∃ B, 0 < B ∧ B ≤ 3 ∧ B ≤ 5
      ∧ (∃ j, j < B ∧ isAllowedByte ([72, 0, 73, 74, 75].getD j 0) = false)
      ∧ processPut ⟨[]⟩ "f" 3 [72, 0, 73, 74, 75]
          = (⟨[]⟩, PutStep.next (VResponse.err "text files only")
              ([72, 0, 73, 74, 75].drop B)) := by
  have h := C10_put_text_error ⟨[]⟩ "f" 3 [72, 0, 73, 74, 75] 1
    (by decide) (by decide) (by decide)
  simpa using h

end Vcs
